import Mathlib

/-!
Verification development for the SqlDataMapper repository.

The Python sources (query_rewriter.py, sql_query_analyzer.py, sql_analyzer.py,
excel_handler.py, app.py) operate on SQL text with regular expressions.  This
file gives a shallow embedding of those functions over `List Char` / `String`:
each Python regex pass is translated into an explicit, deterministic scanner
that reproduces the regex engine's behaviour (leftmost match, greedy
quantifiers with the backtracking that the concrete patterns admit, lazy
groups, non-overlapping `findall`/`sub` scans).  Fuel arguments equal to the
length of the scanned list make every scanner structurally recursive and
kernel-computable.

External library calls (sqlparse.parse / sqlparse.format, pandas file
reading) are modelled at their interface: parsing a single statement is the
identity on its text, and the final pretty-printer `sqlparse.format`
(re-indentation and keyword upcasing only) is modelled as the identity; the
embedded rewriting passes are the repository's own regex logic, reproduced
faithfully.
-/

namespace SqlDataMapper

deriving instance DecidableEq for Except

/-! ## Character classes (ASCII, as used by the Python patterns) -/

/-- The class `[a-zA-Z0-9_]` (Python `\w` as used in the repository's
patterns; `Char.isAlpha`/`Char.isDigit` are ASCII-only in Lean). -/
def isWordChar (c : Char) : Bool :=
  c.isAlpha || c.isDigit || c == '_'

/-- Python `\s` on ASCII input: space, tab, newline, carriage return,
vertical tab, form feed. -/
def isSpaceChar (c : Char) : Bool :=
  c == ' ' || c == '\t' || c == '\n' || c == '\r' || c == '\x0b' || c == '\x0c'

/-- Word-ness of an optional character; `none` (start or end of the string)
is not a word character, which is how `\b` and look-arounds treat the
string's edges. -/
def isWordOpt : Option Char → Bool
  | none => false
  | some c => isWordChar c

/-- Case-insensitive literal match of a pattern against the head of the
text (the effect of Python's `(?i)` flag on a literal). -/
def prefixCI : List Char → List Char → Bool
  | [], _ => true
  | _ :: _, [] => false
  | p :: ps, c :: cs => (p.toLower == c.toLower) && prefixCI ps cs

/-- Case-sensitive literal match of a pattern against the head of the text
(a regex literal without `(?i)`, e.g. the `re.escape`d identifiers). -/
def litPrefix : List Char → List Char → Bool
  | [], _ => true
  | _ :: _, [] => false
  | p :: ps, c :: cs => (p == c) && litPrefix ps cs

/-- Length of the maximal run of whitespace at the head of the list
(the greedy `\s+` / `\s*`). -/
def wsRun : List Char → Nat
  | [] => 0
  | c :: cs => if isSpaceChar c then wsRun cs + 1 else 0

/-- Length of the maximal run of `[a-zA-Z0-9_]` characters at the head of
the list (the greedy `[a-zA-Z0-9_]+`). -/
def wordRun : List Char → Nat
  | [] => 0
  | c :: cs => if isWordChar c then wordRun cs + 1 else 0

/-- Python `str.strip()` restricted to ASCII whitespace. -/
def pyStripWs (l : List Char) : List Char :=
  ((l.dropWhile isSpaceChar).reverse.dropWhile isSpaceChar).reverse

/-- Python `str.strip(chars)`: remove leading and trailing characters that
belong to `cs`. -/
def pyStripChars (cs : List Char) (l : List Char) : List Char :=
  ((l.dropWhile (cs.contains ·)).reverse.dropWhile (cs.contains ·)).reverse

/-! ## The flat-field word-boundary substitution (claim C2)

`app.py` imports `process_multiple_queries` from `query_rewriter`, but that
function is not present in the sources; only its caller is.  The definitions
in this section are therefore modelled from the specification. -/

/-- A standalone (word-boundary-safe) occurrence of the literal `f` at the
head of `l`, given the character `prev` just before `l` in the scanned
string: `(?<![a-zA-Z0-9_])f(?![a-zA-Z0-9_])` — `f` matched case-sensitively,
not preceded and not followed by a letter, digit or underscore. -/
def matchStandalone (f : List Char) (prev : Option Char) (l : List Char) : Bool :=
  !f.isEmpty && !isWordOpt prev && litPrefix f l && !isWordOpt (l.drop f.length).head?

/-- Left-to-right, non-overlapping replacement of every standalone
occurrence of `f` by `t` (the behaviour of `re.sub` with the look-around
pattern above).  After a match the scan resumes past the matched text, and
the look-behind continues to inspect the original string's characters, so
the carried `prev` becomes the last character of the matched text. -/
def scanSub (f t : List Char) : Nat → Option Char → List Char → List Char
  | 0, _, l => l
  | _ + 1, _, [] => []
  | fuel + 1, prev, c :: cs =>
    if matchStandalone f prev (c :: cs) then
      t ++ scanSub f t fuel (some (f.getLastD c)) (cs.drop (f.length - 1))
    else
      c :: scanSub f t fuel (some c) cs

/-- Is there a standalone occurrence of `f` anywhere in `l` (with `prev` the
character just before `l`)?  Decidable companion of "the query contains a
word-boundary-safe occurrence of the field". -/
def hasStandalone (f : List Char) : Option Char → List Char → Bool
  | _, [] => false
  | prev, c :: cs => matchStandalone f prev (c :: cs) || hasStandalone f (some c) cs

/-- Modelled from the spec: the replacement text of one flat-field mapping
row `(sourceField = f, targetField = t, tableScope = s)` — `s.t` when a
scope is given, plain `t` when the scope is empty, where an empty scope or
the pandas sentinel string "nan" means "no scope prefix" (spec §4.4, flat
field mode, steps 1 and 4). -/
def scopedTarget (s t : String) : String :=
  if s = "" ∨ s = "nan" then t else s ++ "." ++ t

/-- Modelled from the spec: the word-boundary substitution pass (step 1 of
flat field mode, spec §4.4) of `process_multiple_queries`, which `app.py`
imports from `query_rewriter` but which is absent from the sources.  For a
mapping row `(sourceField = f, targetField = t, tableScope = s)` it replaces
every standalone occurrence of `f` in the query — an occurrence neither
preceded nor followed by a letter, digit, or underscore — by the scoped
target; rows with empty source or target are skipped entirely (step 4). -/
def flatFieldStandalonePass (f t s q : String) : String :=
  if f = "" ∨ t = "" then q
  else String.mk (scanSub f.data (scopedTarget s t).data q.data.length none q.data)

/-- The character standing immediately before the end of `prev ++ l`: the
last character of `l`, or `prev` itself when `l` is empty. -/
def lastOr (prev : Option Char) (l : List Char) : Option Char :=
  match l.getLast? with
  | some c => some c
  | none => prev

/-! ## Generic regex-scan combinators

`re.findall` / `re.sub` / `re.search` / `re.split` scan the subject left to
right, try the pattern at each position, and on a match continue after the
matched text (all the patterns below consume at least one character).
A matcher returns the number of characters its pattern consumes at the head
of the list (plus possibly captured data); `none` means no match at this
position. -/

/-- `re.findall`: collect the data captured by `m` at each non-overlapping
match, scanning left to right. -/
def collectMatches {α : Type} (m : List Char → Option (Nat × α)) :
    Nat → List Char → List α
  | 0, _ => []
  | _ + 1, [] => []
  | fuel + 1, c :: cs =>
    match m (c :: cs) with
    | some (k, a) => a :: collectMatches m fuel (cs.drop (k - 1))
    | none => collectMatches m fuel cs

/-- Number of non-overlapping matches of a (possibly context-dependent)
pattern, threading the previous character for look-behind / `\b`;
after a match the look-behind character is the last character of the
matched text. -/
def countPat (m : Option Char → List Char → Option Nat) :
    Nat → Option Char → List Char → Nat
  | 0, _, _ => 0
  | _ + 1, _, [] => 0
  | fuel + 1, prev, c :: cs =>
    match m prev (c :: cs) with
    | some k => 1 + countPat m fuel (some (((c :: cs).take k).getLastD c)) (cs.drop (k - 1))
    | none => countPat m fuel (some c) cs

/-- `re.search` for a pattern with no look-behind: the data of the leftmost
match. -/
def searchM {α : Type} (m : List Char → Option α) : Nat → List Char → Option α
  | 0, _ => none
  | fuel + 1, l =>
    match m l with
    | some a => some a
    | none =>
      match l with
      | [] => none
      | _ :: cs => searchM m fuel cs

/-- `re.split`: cut the subject at every non-overlapping match of the
separator pattern. -/
def splitPat (m : List Char → Option Nat) : Nat → List Char → List (List Char)
  | 0, l => [l]
  | _ + 1, [] => [[]]
  | fuel + 1, c :: cs =>
    match m (c :: cs) with
    | some k => [] :: splitPat m fuel (cs.drop (k - 1))
    | none =>
      match splitPat m fuel cs with
      | [] => [[c]]
      | p :: ps => (c :: p) :: ps

/-- A lazy group `(.*?)` followed by a terminator pattern `stop`: try the
terminator at the current position first, else grow the group one character
at a time.  Returns the group and the number of characters the terminator
consumed. -/
def lazyScan (stop : List Char → Option Nat) : Nat → List Char → Option (List Char × Nat)
  | 0, l =>
    match stop l with
    | some k => some ([], k)
    | none => none
  | fuel + 1, l =>
    match stop l with
    | some k => some ([], k)
    | none =>
      match l with
      | [] => none
      | c :: cs => (lazyScan stop fuel cs).map (fun p => (c :: p.1, p.2))

/-! ## Word-boundary keyword matchers (sql_query_analyzer.py patterns) -/

/-- `(?i)\bW\b`: the word `w`, case-insensitively, with word boundaries on
both sides. -/
def wordB (w : List Char) (prev : Option Char) (l : List Char) : Option Nat :=
  if !w.isEmpty && !isWordOpt prev && prefixCI w l
      && !isWordOpt (l.drop w.length).head? then
    some w.length
  else none

/-- `(?i)\bW1\s+W2\b`: two words separated by whitespace, as in
`\bGROUP\s+BY\b`, `\bINNER\s+JOIN\b`, `\bCROSS\s+JOIN\b`. -/
def wordPairB (w1 w2 : List Char) (prev : Option Char) (l : List Char) : Option Nat :=
  if isWordOpt prev then none
  else if prefixCI w1 l then
    let r := l.drop w1.length
    let s := wsRun r
    if s = 0 then none
    else
      let r2 := r.drop s
      if prefixCI w2 r2 && !isWordOpt (r2.drop w2.length).head? then
        some (w1.length + s + w2.length)
      else none
  else none

/-- `JOIN\b` at the head of `l` (the tail of the LEFT/RIGHT/FULL join
patterns). -/
def joinTail (l : List Char) : Bool :=
  prefixCI "JOIN".data l && !isWordOpt (l.drop 4).head?

/-- `(?i)\bW\s+(?:OUTER\s+)?JOIN\b`: the LEFT / RIGHT / FULL join patterns
with their optional `OUTER`.  The greedy optional group tries `OUTER\s+`
first and falls back to the empty alternative. -/
def wordOptOuterJoin (w1 : List Char) (prev : Option Char) (l : List Char) : Option Nat :=
  if isWordOpt prev then none
  else if prefixCI w1 l then
    let r := l.drop w1.length
    let s := wsRun r
    if s = 0 then none
    else
      let r2 := r.drop s
      if prefixCI "OUTER".data r2 then
        let r3 := r2.drop 5
        let s2 := wsRun r3
        if s2 ≠ 0 && joinTail (r3.drop s2) then some (w1.length + s + 5 + s2 + 4)
        else if joinTail r2 then some (w1.length + s + 4)
        else none
      else if joinTail r2 then some (w1.length + s + 4)
      else none
  else none

/-! ## Table-name extraction (`_extract_tables`) -/

/-- A chain of keywords separated by `\s+` (e.g. `INSERT\s+INTO`), matched
case-insensitively; returns the number of characters consumed.  These
patterns have no leading `\b`, exactly as in the source. -/
def kwChain : List (List Char) → List Char → Option Nat
  | [], _ => none
  | [k], l => if prefixCI k l then some k.length else none
  | k :: k2 :: ks, l =>
    if prefixCI k l then
      let r := l.drop k.length
      let s := wsRun r
      if s = 0 then none
      else
        match kwChain (k2 :: ks) (r.drop s) with
        | some n => some (k.length + s + n)
        | none => none
    else none

/-- `KW\s+([a-zA-Z0-9_]+(?:\.[a-zA-Z0-9_]+)?)` when `dotted` is true, and
`KW\s+([a-zA-Z0-9_]+)` when false (the `joined_tables` pattern): keyword
chain, whitespace, then the captured identifier with an optional
schema-qualifying dot. -/
def matchKwIdent (kws : List (List Char)) (dotted : Bool) (l : List Char) :
    Option (Nat × List Char) :=
  match kwChain kws l with
  | none => none
  | some n =>
    let r := l.drop n
    let s := wsRun r
    if s = 0 then none
    else
      let r2 := r.drop s
      let i1 := wordRun r2
      if i1 = 0 then none
      else
        let r3 := r2.drop i1
        if dotted then
          match r3 with
          | '.' :: r4 =>
            let i2 := wordRun r4
            if i2 = 0 then some (n + s + i1, r2.take i1)
            else some (n + s + i1 + 1 + i2, r2.take (i1 + 1 + i2))
          | _ => some (n + s + i1, r2.take i1)
        else some (n + s + i1, r2.take i1)

/-- The quote characters stripped by `table.strip('"`[]')`. -/
def quoteStripSet : List Char := '"' :: '`' :: '[' :: ']' :: []

/-- `_extract_tables`: identifiers following FROM / JOIN / INSERT INTO /
UPDATE / DELETE FROM, in source order of the five `findall` passes, kept
when non-empty, stripped of quote characters and de-duplicated (Python's
`list(set(...))`; the embedding uses a deterministic de-duplication, which
is length- and membership-equivalent). -/
def extractTables (q : String) : List String :=
  let cap := fun (kws : List (List Char)) =>
    collectMatches (matchKwIdent kws true) q.data.length q.data
  let all := cap ["FROM".data] ++ cap ["JOIN".data]
    ++ cap ["INSERT".data, "INTO".data] ++ cap ["UPDATE".data]
    ++ cap ["DELETE".data, "FROM".data]
  (((all.filter (· ≠ [])).map (fun t => String.mk (pyStripChars quoteStripSet t)))).dedup

/-! ## Subqueries, joins, complexity (sql_query_analyzer.py) -/

/-- Count of `(?i)\bSELECT\b` occurrences in the statement. -/
def countSelectKw (q : String) : Nat :=
  countPat (wordB "SELECT".data) q.data.length none q.data

/-- `_detect_subqueries`: `max(0, select_count - 1)`. -/
def detectSubqueries (q : String) : Nat :=
  (max 0 ((countSelectKw q : Int) - 1)).toNat

/-- Does `re.search` find the given context-dependent pattern anywhere? -/
def hasPat (m : Option Char → List Char → Option Nat) (q : String) : Bool :=
  0 < countPat m q.data.length none q.data

/-- Join information record (`_analyze_joins` result dictionary). -/
structure JoinInfo where
  has_joins : Bool
  join_types : List String
  join_count : Nat
  joined_tables : List String
deriving DecidableEq

/-- The `join_patterns` dictionary, in insertion order. -/
def joinPatterns : List (String × (Option Char → List Char → Option Nat)) :=
  [("INNER JOIN", wordPairB "INNER".data "JOIN".data),
   ("LEFT JOIN", wordOptOuterJoin "LEFT".data),
   ("RIGHT JOIN", wordOptOuterJoin "RIGHT".data),
   ("FULL JOIN", wordOptOuterJoin "FULL".data),
   ("CROSS JOIN", wordPairB "CROSS".data "JOIN".data),
   ("JOIN", wordB "JOIN".data)]

/-- `_analyze_joins`: for each join pattern (dictionary order), a non-empty
`findall` sets `has_joins`, appends the label and adds the number of matches
to the count; `joined_tables` collects the identifiers named right after a
`JOIN` keyword. -/
def joinStep (q : String) (ji : JoinInfo)
    (p : String × (Option Char → List Char → Option Nat)) : JoinInfo :=
  let n := countPat p.2 q.data.length none q.data
  if 0 < n then
    { ji with
        has_joins := true
        join_types := ji.join_types ++ [p.1]
        join_count := ji.join_count + n }
  else ji

def analyzeJoins (q : String) : JoinInfo :=
  let base : JoinInfo :=
    { has_joins := false, join_types := [], join_count := 0, joined_tables := [] }
  let ji := joinPatterns.foldl (joinStep q) base
  { ji with
      joined_tables :=
        ((collectMatches (matchKwIdent ["JOIN".data] false) q.data.length
          q.data).map String.mk).dedup }

/-- `_assess_complexity`: the additive score of the source, including its
`\bSUBQUERY\b` keyword test, followed by the threshold classification. -/
def complexityScore (q : String) : Nat :=
  (if hasPat (wordB "JOIN".data) q then 2 else 0)
  + (if hasPat (wordB "SUBQUERY".data) q || 0 < detectSubqueries q then 3 else 0)
  + (if hasPat (wordB "UNION".data) q then 2 else 0)
  + (if hasPat (wordPairB "GROUP".data "BY".data) q then 1 else 0)
  + (if hasPat (wordPairB "ORDER".data "BY".data) q then 1 else 0)
  + (if hasPat (wordB "HAVING".data) q then 2 else 0)
  + (extractTables q).length

/-- `_assess_complexity`'s final classification. -/
def assessComplexity (q : String) : String :=
  if complexityScore q ≤ 2 then "Simple"
  else if complexityScore q ≤ 5 then "Medium"
  else "Complex"

/-- The score exactly as claim C3 words it: no `\bSUBQUERY\b` keyword test,
`+3` only when the subquery count is positive. -/
def claimScoreC3 (q : String) : Nat :=
  (if hasPat (wordB "JOIN".data) q then 2 else 0)
  + (if 0 < detectSubqueries q then 3 else 0)
  + (if hasPat (wordB "UNION".data) q then 2 else 0)
  + (if hasPat (wordPairB "GROUP".data "BY".data) q then 1 else 0)
  + (if hasPat (wordPairB "ORDER".data "BY".data) q then 1 else 0)
  + (if hasPat (wordB "HAVING".data) q then 2 else 0)
  + (extractTables q).length

/-! ## WHERE-condition extraction (`_extract_where_conditions`) -/

/-- The `$` of a pattern without `re.MULTILINE`: matches at the end of the
subject, or just before a single trailing newline. -/
def dollarStop : List Char → Option Nat
  | [] => some 0
  | ['\n'] => some 0
  | _ => none

/-- `\s+W1\s+W2` (no trailing boundary), as in the `\s+GROUP\s+BY`
terminator alternatives. -/
def wsWordPair (w1 w2 : List Char) (l : List Char) : Option Nat :=
  let s := wsRun l
  if s = 0 then none
  else
    let r := l.drop s
    if prefixCI w1 r then
      let r2 := r.drop w1.length
      let s2 := wsRun r2
      if s2 = 0 then none
      else if prefixCI w2 (r2.drop s2) then some (s + w1.length + s2 + w2.length)
      else none
    else none

/-- `\s+W` (no trailing boundary), the `\s+HAVING` terminator. -/
def wsWord (w : List Char) (l : List Char) : Option Nat :=
  let s := wsRun l
  if s = 0 then none
  else if prefixCI w (l.drop s) then some (s + w.length)
  else none

/-- The terminator alternation
`(?:\s+GROUP\s+BY|\s+ORDER\s+BY|\s+HAVING|$)`, tried in source order. -/
def whereStop (l : List Char) : Option Nat :=
  match wsWordPair "GROUP".data "BY".data l with
  | some k => some k
  | none =>
    match wsWordPair "ORDER".data "BY".data l with
    | some k => some k
    | none =>
      match wsWord "HAVING".data l with
      | some k => some k
      | none => dollarStop l

/-- `(?i)WHERE\s+(.*?)(?:\s+GROUP\s+BY|\s+ORDER\s+BY|\s+HAVING|$)` at the
head of `l`: the captured lazy group. -/
def matchWhereAt (l : List Char) : Option (List Char) :=
  if prefixCI "WHERE".data l then
    let r := l.drop 5
    let s := wsRun r
    if s = 0 then none
    else ((lazyScan whereStop (r.drop s).length (r.drop s)).map (·.1))
  else none

/-- Separator `(?i)\s+(?:AND|OR)\s+` of the condition split (alternation
tries `AND` before `OR`). -/
def andOrSep (l : List Char) : Option Nat :=
  let s := wsRun l
  if s = 0 then none
  else
    let r := l.drop s
    if prefixCI "AND".data r && 0 < wsRun (r.drop 3) then
      some (s + 3 + wsRun (r.drop 3))
    else if prefixCI "OR".data r && 0 < wsRun (r.drop 2) then
      some (s + 2 + wsRun (r.drop 2))
    else none

/-- `_extract_where_conditions`: the text between the first `WHERE` and the
next GROUP BY / ORDER BY / HAVING / end, stripped, split on top-level
AND/OR separators, each fragment stripped, empties discarded. -/
def extractWhereConditions (q : String) : List String :=
  match searchM matchWhereAt q.data.length q.data with
  | none => []
  | some w =>
    let wc := pyStripWs w
    (((splitPat andOrSep wc.length wc).map pyStripWs).filter (· ≠ [])).map String.mk

/-! ## SELECT-clause field extraction (`_extract_select_fields`) -/

/-- The terminator `\s+FROM` of the lazy SELECT-clause group: a maximal
whitespace run followed by `FROM` (case-insensitively). -/
def stopWsFrom (l : List Char) : Option Nat :=
  let s := wsRun l
  if s = 0 then none
  else if prefixCI "FROM".data (l.drop s) then some (s + 4)
  else none

/-- `(?i)SELECT\s+(.*?)\s+FROM` at the head of `l`: total characters
consumed and the captured clause. -/
def matchSelectFromAt (l : List Char) : Option (Nat × List Char) :=
  if prefixCI "SELECT".data l then
    let r := l.drop 6
    let s := wsRun r
    if s = 0 then none
    else
      match lazyScan stopWsFrom (r.drop s).length (r.drop s) with
      | some (g, k) => some (6 + s + g.length + k, g)
      | none => none
  else none

/-- The clause captured by `re.search` of the SELECT pattern (leftmost
match). -/
def searchSelectClause (q : List Char) : Option (List Char) :=
  searchM (fun l => (matchSelectFromAt l).map (·.2)) q.length q

/-- One match of `[a-zA-Z0-9_]+\((.*?)\)`: a function name, an opening
parenthesis, the lazy group up to the nearest closing parenthesis. -/
def scanToClose : List Char → Option (List Char)
  | [] => none
  | c :: cs => if c == ')' then some [] else (scanToClose cs).map (c :: ·)

/-- Matcher for the function-unwrapping pattern; returns characters
consumed and the captured argument text. -/
def funcUnwrapAt (l : List Char) : Option (Nat × List Char) :=
  let i := wordRun l
  if i = 0 then none
  else
    match l.drop i with
    | '(' :: r =>
      match scanToClose r with
      | some g => some (i + 1 + g.length + 1, g)
      | none => none
    | _ => none

/-- `re.sub(pattern, r'\1', field)`: replace every match of the
function-unwrapping pattern by its captured group. -/
def subAllCaps (m : List Char → Option (Nat × List Char)) :
    Nat → List Char → List Char
  | 0, l => l
  | _ + 1, [] => []
  | fuel + 1, c :: cs =>
    match m (c :: cs) with
    | some (k, g) => g ++ subAllCaps m fuel (cs.drop (k - 1))
    | none => c :: subAllCaps m fuel cs

/-- Python `str.split(sep)` for a one-character separator: split at every
occurrence, keeping empty pieces (`"a,,b"` gives three pieces, `""` one). -/
def splitOnChar (sep : Char) : List Char → List (List Char)
  | [] => [[]]
  | c :: cs =>
    if c == sep then [] :: splitOnChar sep cs
    else
      match splitOnChar sep cs with
      | [] => [[c]]
      | p :: ps => (c :: p) :: ps

/-- Substring test: does `pat` occur anywhere in the list (Python
`pat in text`)? -/
def containsSeq (pat : List Char) : List Char → Bool
  | [] => pat.isEmpty
  | c :: cs => litPrefix pat (c :: cs) || containsSeq pat cs

/-- The text before the first occurrence of `pat` (the whole list when
`pat` does not occur): Python `field.split(pat)[0]`. -/
def takeBeforeSeq (pat : List Char) : List Char → List Char
  | [] => []
  | c :: cs => if litPrefix pat (c :: cs) then [] else c :: takeBeforeSeq pat cs

/-- The per-item processing of `_extract_select_fields`: strip the text
from a literal uppercase ` AS ` on (the test is case-insensitive but the
split is on the literal uppercase separator), keep the last dot-component,
unwrap one level of function call, strip quote characters. -/
def processSelectField (fld : List Char) : List Char :=
  let f1 :=
    if containsSeq (" AS ".data) (fld.map Char.toUpper) then
      pyStripWs (takeBeforeSeq " AS ".data fld)
    else fld
  let f2 :=
    if f1.contains '.' then pyStripWs ((splitOnChar '.' f1).getLastD [])
    else f1
  let f3 := subAllCaps funcUnwrapAt f2.length f2
  pyStripChars quoteStripSet f3

/-- `_extract_select_fields`: the clause between the first `SELECT` and the
first following `FROM`; `['*']` whenever the clause contains a `*`;
otherwise split on every comma, each item stripped then processed, empty
results discarded. -/
def extractSelectFields (q : String) : List String :=
  match searchSelectClause q.data with
  | none => []
  | some clause =>
    if clause.contains '*' then ["*"]
    else
      ((((splitOnChar ',' clause).map pyStripWs).map processSelectField).map
        String.mk).filter (· ≠ "")

/-! ## CRUD detection, temp tables, functions -/

/-- `^\s*KW\b` (anchored, case-insensitive): leading whitespace then the
keyword with a trailing word boundary. -/
def matchCrud (kw : List Char) (q : List Char) : Bool :=
  let s := wsRun q
  let r := q.drop s
  prefixCI kw r && !isWordOpt (r.drop kw.length).head?

/-- The `crud_patterns` dictionary in insertion order. -/
def crudKeywords : List String :=
  ["SELECT", "INSERT", "UPDATE", "DELETE", "CREATE", "DROP", "ALTER"]

/-- `_detect_crud_operation`: the first matching pattern's label, else
UNKNOWN. -/
def detectCrudOperation (q : String) : String :=
  match crudKeywords.find? (fun kw => matchCrud kw.data q.data) with
  | some kw => kw
  | none => "UNKNOWN"

/-- `[a-zA-Z0-9_#@]+`, the identifier class of the temp-table patterns. -/
def isTempChar (c : Char) : Bool :=
  isWordChar c || c == '#' || c == '@'

/-- Length of the maximal `[a-zA-Z0-9_#@]+` run. -/
def tempRun : List Char → Nat
  | [] => 0
  | c :: cs => if isTempChar c then tempRun cs + 1 else 0

/-- `(?i)CREATE\s+(?:TEMP|TEMPORARY)\s+TABLE\s+([a-zA-Z0-9_#@]+)`; the
alternation tries `TEMP` first and backtracks to `TEMPORARY` when no
whitespace follows. -/
def matchCreateTemp (l : List Char) : Option (Nat × List Char) :=
  if prefixCI "CREATE".data l then
    let r := l.drop 6
    let s := wsRun r
    if s = 0 then none
    else
      let r2 := r.drop s
      let tempLen : Option Nat :=
        if prefixCI "TEMP".data r2 && 0 < wsRun (r2.drop 4) then some 4
        else if prefixCI "TEMPORARY".data r2 && 0 < wsRun (r2.drop 9) then some 9
        else none
      match tempLen with
      | none => none
      | some tl =>
        let s2 := wsRun (r2.drop tl)
        let r3 := r2.drop (tl + s2)
        if prefixCI "TABLE".data r3 then
          let s3 := wsRun (r3.drop 5)
          if s3 = 0 then none
          else
            let r4 := r3.drop (5 + s3)
            let i := tempRun r4
            if i = 0 then none
            else some (6 + s + tl + s2 + 5 + s3 + i, r4.take i)
        else none
  else none

/-- `(?i)WITH\s+([a-zA-Z0-9_#@]+)\s+AS\s*\(` — common-table-expression
heads. -/
def matchWithCte (l : List Char) : Option (Nat × List Char) :=
  if prefixCI "WITH".data l then
    let r := l.drop 4
    let s := wsRun r
    if s = 0 then none
    else
      let r2 := r.drop s
      let i := tempRun r2
      if i = 0 then none
      else
        let r3 := r2.drop i
        let s2 := wsRun r3
        if s2 = 0 then none
        else
          let r4 := r3.drop s2
          if prefixCI "AS".data r4 then
            let s3 := wsRun (r4.drop 2)
            match (r4.drop (2 + s3)) with
            | '(' :: _ => some (4 + s + i + s2 + 2 + s3 + 1, r2.take i)
            | _ => none
          else none
  else none

/-- `(?i)#([a-zA-Z0-9_]+)` — SQL Server temp tables. -/
def matchHashTemp (l : List Char) : Option (Nat × List Char) :=
  match l with
  | '#' :: r =>
    let i := wordRun r
    if i = 0 then none else some (1 + i, r.take i)
  | _ => none

/-- `(?i)@@([a-zA-Z0-9_]+)` — MySQL temp tables. -/
def matchAtAtTemp (l : List Char) : Option (Nat × List Char) :=
  match l with
  | '@' :: '@' :: r =>
    let i := wordRun r
    if i = 0 then none else some (2 + i, r.take i)
  | _ => none

/-- `_extract_temp_tables`: the four patterns' captures in order,
de-duplicated (`list(set(...))`, embedded deterministically). -/
def extractTempTables (q : String) : List String :=
  let caps := collectMatches matchCreateTemp q.data.length q.data
    ++ collectMatches matchWithCte q.data.length q.data
    ++ collectMatches matchHashTemp q.data.length q.data
    ++ collectMatches matchAtAtTemp q.data.length q.data
  (caps.map String.mk).dedup

/-- `[A-Z_]` — the function-name class (no digits). -/
def isFuncChar (c : Char) : Bool :=
  (c.isUpper || c == '_')

/-- Length of the maximal `[A-Z_]+` run. -/
def funcRun : List Char → Nat
  | [] => 0
  | c :: cs => if isFuncChar c then funcRun cs + 1 else 0

/-- `([A-Z_]+)\s*\(` — one function-name match (applied to the uppercased
query). -/
def matchFuncName (l : List Char) : Option (Nat × List Char) :=
  let i := funcRun l
  if i = 0 then none
  else
    let s := wsRun (l.drop i)
    match (l.drop (i + s)) with
    | '(' :: _ => some (i + s + 1, l.take i)
    | _ => none

/-- The keyword filter of `_extract_functions`. -/
def sqlKeywordSet : List String :=
  ["SELECT", "FROM", "WHERE", "INSERT", "UPDATE", "DELETE", "CREATE", "DROP"]

/-- `_extract_functions`: `IDENT(` matches on the uppercased query, known
statement keywords removed, de-duplicated. -/
def extractFunctions (q : String) : List String :=
  let u := q.data.map Char.toUpper
  let caps := (collectMatches matchFuncName u.length u).map String.mk
  (caps.filter (fun f => ¬ f ∈ sqlKeywordSet)).dedup

/-! ## The per-statement analysis record and the tabular projection -/

/-- `analyze_query`'s result dictionary (`query_number` is added only by
`analyze_multiple_queries`, hence optional). -/
structure QueryAnalysis where
  query : String
  crud_operation : String
  tables_used : List String
  fields_selected : List String
  temp_tables : List String
  join_info : JoinInfo
  where_conditions : List String
  subqueries : Nat
  functions_used : List String
  query_complexity : String
  query_number : Option Nat
deriving DecidableEq

/-- `analyze_query`: strip the statement, then run every extractor. -/
def analyzeQuery (q : String) : QueryAnalysis :=
  let s := String.mk (pyStripWs q.data)
  { query := s
    crud_operation := detectCrudOperation s
    tables_used := extractTables s
    fields_selected := extractSelectFields s
    temp_tables := extractTempTables s
    join_info := analyzeJoins s
    where_conditions := extractWhereConditions s
    subqueries := detectSubqueries s
    functions_used := extractFunctions s
    query_complexity := assessComplexity s
    query_number := none }

/-- One row of `create_analysis_dataframe`: column names paired with the
stringified cell values exactly as the source builds them — note that the
`Where Conditions` column holds `len(result['where_conditions'])`. -/
def createAnalysisRow (r : QueryAnalysis) : List (String × String) :=
  [("Query #", match r.query_number with | some n => toString n | none => ""),
   ("CRUD Operation", r.crud_operation),
   ("Tables Used", String.intercalate ", " r.tables_used),
   ("Selected Fields", String.intercalate ", " r.fields_selected),
   ("Temporary Tables", String.intercalate ", " r.temp_tables),
   ("Has Joins", if r.join_info.has_joins then "Yes" else "No"),
   ("Join Types", String.intercalate ", " r.join_info.join_types),
   ("Join Count", toString r.join_info.join_count),
   ("Subqueries", toString r.subqueries),
   ("Functions Used", String.intercalate ", " r.functions_used),
   ("Complexity", r.query_complexity),
   ("Where Conditions", toString r.where_conditions.length)]

/-- `create_analysis_dataframe`: one row per analysis record. -/
def createAnalysisDataframe (rs : List QueryAnalysis) : List (List (String × String)) :=
  rs.map createAnalysisRow

/-! ## The rewrite engine (query_rewriter.py)

`rewrite_query` escapes identifiers with `re.escape` on the pattern side
(so they match literally) but interpolates target identifiers raw into the
`re.sub` replacement templates, where backslash escapes are interpreted;
the embedding therefore models Python's replacement-template expansion and
returns `Except`, as a malformed template raises `re.error`. -/

/-- Python replacement-template expansion (`sre_parse.parse_template`
semantics for the escapes that can arise here): `\1`..`\99` insert the
corresponding group (one or two digits), `\\` a backslash, `\0` a NUL
octal escape, `\n`/`\r`/`\t`/`\a`/`\b`/`\f`/`\v` their control characters,
`\g` demands a `<name>` (not produced by this code — modelled as the
`missing <` error it raises without one), any other escaped ASCII letter is
a `bad escape` error, an escaped non-letter stands for itself with the
backslash kept, and a trailing lone backslash is an error. -/
def expandTemplate (groups : List (List Char)) : Nat → List Char → Except String (List Char)
  | 0, l => .ok l
  | _ + 1, [] => .ok []
  | fuel + 1, c :: cs =>
    if c == '\\' then
      match cs with
      | [] => .error "bad escape (end of pattern)"
      | e :: r =>
        if e == '\\' then (expandTemplate groups fuel r).map ('\\' :: ·)
        else if e.isDigit && e != '0' then
          let twoDigit := match r with
            | d :: _ => d.isDigit
            | [] => false
          let idx := if twoDigit then
              (e.toNat - '0'.toNat) * 10 + ((r.headD '0').toNat - '0'.toNat)
            else e.toNat - '0'.toNat
          let r2 := if twoDigit then r.drop 1 else r
          match groups.get? (idx - 1) with
          | some g => (expandTemplate groups fuel r2).map (g ++ ·)
          | none => .error "invalid group reference"
        else if e == '0' then
          (expandTemplate groups fuel r).map (Char.ofNat 0 :: ·)
        else if e == 'g' then .error "missing <"
        else if e == 'n' then (expandTemplate groups fuel r).map ('\n' :: ·)
        else if e == 'r' then (expandTemplate groups fuel r).map ('\r' :: ·)
        else if e == 't' then (expandTemplate groups fuel r).map ('\t' :: ·)
        else if e == 'a' then (expandTemplate groups fuel r).map ('\x07' :: ·)
        else if e == 'b' then (expandTemplate groups fuel r).map ('\x08' :: ·)
        else if e == 'f' then (expandTemplate groups fuel r).map ('\x0c' :: ·)
        else if e == 'v' then (expandTemplate groups fuel r).map ('\x0b' :: ·)
        else if e.isAlpha then .error "bad escape"
        else (expandTemplate groups fuel r).map (fun x => '\\' :: e :: x)
    else (expandTemplate groups fuel cs).map (c :: ·)

/-- `re.sub(pattern, template, subject)`: replace every non-overlapping
match (these patterns are context-free, no look-behind) by the expanded
template. -/
def subAllTpl (m : List Char → Option (Nat × List (List Char))) (tpl : List Char) :
    Nat → List Char → Except String (List Char)
  | 0, l => .ok l
  | _ + 1, [] => .ok []
  | fuel + 1, c :: cs =>
    match m (c :: cs) with
    | some (k, gs) =>
      match expandTemplate gs tpl.length tpl with
      | .error e => .error e
      | .ok rep =>
        match subAllTpl m tpl fuel (cs.drop (k - 1)) with
        | .error e => .error e
        | .ok rest => .ok (rep ++ rest)
    | none =>
      match subAllTpl m tpl fuel cs with
      | .error e => .error e
      | .ok rest => .ok (c :: rest)

/-- `([`"\[]?)` / `([`"\]]?)`: the optional opening and closing
quote-character classes around identifiers. -/
def openQ (c : Char) : Bool :=
  c == '`' || c == '"' || c == '['

def closeQ (c : Char) : Bool :=
  c == '`' || c == '"' || c == ']'

/-- `([`"\[]?)src([`"\]]?)` at the head of `l`: the optional (greedy)
opening quote, the identifier (case-insensitively when `ci`, since the
whole pattern carries `(?i)`; literally otherwise), the optional (greedy)
closing quote.  Returns characters consumed and the two captured groups. -/
def matchSrcQuoted (ci : Bool) (src : List Char) (l : List Char) :
    Option (Nat × List Char × List Char) :=
  let fits : List Char → Bool := fun r => if ci then prefixCI src r else litPrefix src r
  let afterSrc : Nat → List Char → Option (Nat × List Char × List Char) :=
    fun pre g1 =>
      let r2 := (l.drop pre).drop src.length
      match r2 with
      | d :: _ =>
        if closeQ d then some (pre + src.length + 1, g1, [d])
        else some (pre + src.length, g1, [])
      | [] => some (pre + src.length, g1, [])
  match l with
  | c :: r =>
    if openQ c && fits r then afterSrc 1 [c]
    else if fits l then afterSrc 0 []
    else none
  | [] => if src.isEmpty then some (0, [], []) else none

/-- `(?i)KW\s+([`"\[]?)src([`"\]]?)` — the FROM- and JOIN-clause
table-rename patterns of pass 1. -/
def matchKwSrc (kw src : List Char) (l : List Char) : Option (Nat × List (List Char)) :=
  if prefixCI kw l then
    let r := l.drop kw.length
    let s := wsRun r
    if s = 0 then none
    else
      match matchSrcQuoted true src (r.drop s) with
      | some (k, g1, g2) => some (kw.length + s + k, [g1, g2])
      | none => none
  else none

/-- `(?i)([`"\[]?)src([`"\]]?)\s+AS\s+([a-zA-Z0-9_]+)` — the alias-finding
pattern of pass 2; captures the two quote groups and the alias. -/
def matchAliasFind (src : List Char) (l : List Char) :
    Option (Nat × (List Char × List Char × List Char)) :=
  match matchSrcQuoted true src l with
  | none => none
  | some (k, g1, g2) =>
    let r := l.drop k
    let s := wsRun r
    if s = 0 then none
    else
      let r2 := r.drop s
      if prefixCI "AS".data r2 then
        let s2 := wsRun (r2.drop 2)
        if s2 = 0 then none
        else
          let r3 := r2.drop (2 + s2)
          let i := wordRun r3
          if i = 0 then none
          else some (k + s + 2 + s2 + i, (g1, g2, r3.take i))
      else none

/-- The literal pattern rebuilt by pass 2 for each alias found:
`(?i)` + escaped `g1 src g2` + `\s+AS\s+` + escaped alias (no capture
groups). -/
def matchAliasLit (g1 src g2 als : List Char) (l : List Char) :
    Option (Nat × List (List Char)) :=
  if prefixCI g1 l then
    let r1 := l.drop g1.length
    if prefixCI src r1 then
      let r2 := r1.drop src.length
      if prefixCI g2 r2 then
        let r3 := r2.drop g2.length
        let s := wsRun r3
        if s = 0 then none
        else
          let r4 := r3.drop s
          if prefixCI "AS".data r4 then
            let s2 := wsRun (r4.drop 2)
            if s2 = 0 then none
            else if prefixCI als (r4.drop (2 + s2)) then
              some (g1.length + src.length + g2.length + s + 2 + s2 + als.length, [])
            else none
          else none
      else none
    else none
  else none

/-- `([`"\[]?)srcT([`"\]]?)\.([`"\[]?)srcF([`"\]]?)` — the qualified-field
pattern of pass 3 (case-sensitive: it has no `(?i)` in the source). -/
def matchTableFieldPat (srcT srcF : List Char) (l : List Char) :
    Option (Nat × List (List Char)) :=
  match matchSrcQuoted false srcT l with
  | none => none
  | some (k1, g1, g2) =>
    match l.drop k1 with
    | '.' :: r2 =>
      match matchSrcQuoted false srcF r2 with
      | some (k2, g3, g4) => some (k1 + 1 + k2, [g1, g2, g3, g4])
      | none => none
    | _ => none

/-- `extract_field_with_table` (sql_analyzer.py): every
`([a-zA-Z0-9_]+)\.([a-zA-Z0-9_]+)` occurrence, quote-stripped. -/
def matchDottedPair (l : List Char) : Option (Nat × (List Char × List Char)) :=
  let i := wordRun l
  if i = 0 then none
  else
    match l.drop i with
    | '.' :: r =>
      let j := wordRun r
      if j = 0 then none
      else some (i + 1 + j, (l.take i, r.take j))
    | _ => none

def extractFieldWithTable (q : String) : List (String × String) :=
  (collectMatches matchDottedPair q.data.length q.data).map
    (fun p => (String.mk (pyStripChars quoteStripSet p.1),
               String.mk (pyStripChars quoteStripSet p.2)))

/-- Python `dict(...).get(k)` for a dict built from an association list in
order (later bindings overwrite earlier ones). -/
def dictGet (m : List (String × String)) (k : String) : Option String :=
  (m.reverse.find? (fun p => p.1 == k)).map (·.2)

/-- The nested `field_mappings` dictionary of `rewrite_query`: rows
`(Source Table, Source Field, Target Field)` with all three values
non-empty, later rows overwriting earlier ones. -/
def fieldMapGet (rows : List (String × String × String)) (tbl fld : String) :
    Option String :=
  (((rows.filter (fun r => r.1 != "" && r.2.1 != "" && r.2.2 != "")).reverse).find?
    (fun r => r.1 == tbl && r.2.1 == fld)).map (·.2.2)

/-- Python `str.replace(pat, rep)`: literal, non-overlapping, all
occurrences. -/
def strReplaceAll (pat rep : List Char) : Nat → List Char → List Char
  | 0, l => l
  | _ + 1, [] => []
  | fuel + 1, c :: cs =>
    if !pat.isEmpty && litPrefix pat (c :: cs) then
      rep ++ strReplaceAll pat rep fuel (cs.drop (pat.length - 1))
    else c :: strReplaceAll pat rep fuel cs

/-- `\s+AS\s+([a-zA-Z0-9_]+)$` matched against the whole of `l` (the `$`
accepts the end of the string or a single trailing newline). -/
def matchAsTail (l : List Char) : Option (List Char) :=
  let s := wsRun l
  if s = 0 then none
  else
    let r := l.drop s
    if prefixCI "AS".data r then
      let s2 := wsRun (r.drop 2)
      if s2 = 0 then none
      else
        let r2 := r.drop (2 + s2)
        let i := wordRun r2
        if i = 0 then none
        else
          match r2.drop i with
          | [] => some (r2.take i)
          | ['\n'] => some (r2.take i)
          | _ => none
    else none

/-- `re.search(r'(?i)(.*?)\s+AS\s+([a-zA-Z0-9_]+)$', field)`: the lazy
group grows from the left until the alias tail matches; returns
`(expression, alias)`. -/
def splitAsAlias : Nat → List Char → List Char → Option (List Char × List Char)
  | 0, acc, l => (matchAsTail l).map (fun a => (acc.reverse, a))
  | fuel + 1, acc, l =>
    match matchAsTail l with
    | some a => some (acc.reverse, a)
    | none =>
      match l with
      | [] => none
      | c :: cs => splitAsAlias fuel (c :: acc) cs

/-- Pass 4's per-item rewriting of an aliased `table.field` expression
(lines 98–123 of query_rewriter.py). -/
def rewriteSelectField (tms : List (String × String))
    (rows : List (String × String × String)) (fld : List Char) : List Char :=
  match splitAsAlias fld.length [] fld with
  | none => fld
  | some (expr, als) =>
    let fe := pyStripWs expr
    let al := pyStripWs als
    match searchM (fun l => (matchDottedPair l).map (·.2)) fe.length fe with
    | none => fld
    | some (st, sf) =>
      let stS := String.mk st
      let sfS := String.mk sf
      match dictGet tms stS with
      | none => fld
      | some tt =>
        if tt = "" then fld
        else
          let tf := (fieldMapGet rows stS sfS).getD sfS
          let fe2 := strReplaceAll (st ++ '.' :: sf) (tt.data ++ '.' :: tf.data)
            fe.length fe
          fe2 ++ " AS ".data ++ al

/-- Pass 4: re-scan the SELECT clause; the comma-separated items (split on
every comma, stripped) are rewritten and joined back, and the whole
`SELECT ... FROM` span is substituted with the rebuilt clause. -/
def passSelectClause (tms : List (String × String))
    (rows : List (String × String × String)) (l : List Char) :
    Except String (List Char) :=
  match searchM matchSelectFromAt l.length l with
  | none => .ok l
  | some (_, clause) =>
    let fields := (splitOnChar ',' clause).map pyStripWs
    let fields2 := fields.map (rewriteSelectField tms rows)
    let nsc := List.intercalate (", ".data) fields2
    subAllTpl (fun s => (matchSelectFromAt s).map (fun p => (p.1, [p.2])))
      ("SELECT ".data ++ nsc ++ " FROM".data) l.length l

/-- Pass 1 for one table-rename directive: the FROM-clause substitution,
the JOIN-clause substitution, then one substitution per
`src AS alias` occurrence found (pass 2), in source order. -/
def passOneTable (src tgt : String) (l : List Char) : Except String (List Char) := do
  let l1 ← subAllTpl (matchKwSrc "FROM".data src.data)
    ("FROM \\1".data ++ tgt.data ++ "\\2".data) l.length l
  let l2 ← subAllTpl (matchKwSrc "JOIN".data src.data)
    ("JOIN \\1".data ++ tgt.data ++ "\\2".data) l1.length l1
  let triples := collectMatches (matchAliasFind src.data) l2.length l2
  triples.foldlM
    (fun acc t3 =>
      subAllTpl (matchAliasLit t3.1 src.data t3.2.1 t3.2.2)
        (t3.1 ++ tgt.data ++ t3.2.1 ++ " AS ".data ++ t3.2.2) acc.length acc)
    l2

/-- Pass 3 for one extracted `table.field` pair: substitute
`target.targetField`, keeping the field name when no field rule matches;
pairs whose table has no (non-empty) rename directive are skipped. -/
def passOnePair (tms : List (String × String))
    (rows : List (String × String × String)) (l : List Char)
    (pair : String × String) : Except String (List Char) :=
  match dictGet tms pair.1 with
  | none => .ok l
  | some tt =>
    if tt = "" then .ok l
    else
      let tf := (fieldMapGet rows pair.1 pair.2).getD pair.2
      subAllTpl (matchTableFieldPat pair.1.data pair.2.data)
        ("\\1".data ++ tt.data ++ "\\2.\\3".data ++ tf.data ++ "\\4".data)
        l.length l

/-- `sqlparse.format(..., reindent=True, keyword_case='upper')` is an
external library call that only re-indents and upcases keywords; it is
modelled as the identity on the text. -/
def sqlparseFormatModel (s : String) : String := s

/-- `rewrite_query(sql_query, table_mappings, mapping_df)`:
`sqlparse.parse` of the single statement is modelled as the identity on its
text; pass 1/2 rename tables after FROM/JOIN and in `AS`-alias positions
for each directive (in mapping order, skipping empty targets); pass 3
rewrites every `table.field` pair extracted from the *original* query text;
pass 4 re-derives the SELECT clause; the final reformat is modelled as the
identity.  Replacement-template errors (`re.error`) surface as `.error`. -/
def rewriteQuery (sqlQuery : String) (tableMappings : List (String × String))
    (mappingRows : List (String × String × String)) : Except String String := do
  let s0 := sqlQuery.data
  let s1 ← tableMappings.foldlM
    (fun acc p => if p.2 = "" then pure acc else passOneTable p.1 p.2 acc) s0
  let pairs := extractFieldWithTable sqlQuery
  let s3 ← pairs.foldlM (fun acc pr => passOnePair tableMappings mappingRows acc pr) s1
  let s4 ← passSelectClause tableMappings mappingRows s3
  return sqlparseFormatModel (String.mk s4)

/-! ## Mapping-schema validation (excel_handler.py)

`parse_excel_mapping` reads the spreadsheet through pandas (external); the
embedded part is its column-schema validation: the literal check for the
four required columns, the flexible matching fallback, the rename, and the
error listing the columns still missing.  (The outer `except` wraps the
message in `Error parsing Excel file: ...`; the embedded error value is the
inner message, which is the part naming the missing columns.) -/

/-- `col.lower().replace(' ', '')` — the normalisation used on both sides
of the flexible match. -/
def normCol (s : String) : String :=
  String.mk ((s.data.map Char.toLower).filter (· ≠ ' '))

/-- The flexible match: the normalised canonical name occurs as a substring
of the normalised header. -/
def colMatches (req col : String) : Bool :=
  containsSeq (normCol req).data (normCol col).data

def requiredCols : List String :=
  ["Source Table", "Target Table", "Source Field", "Target Field"]

/-- Insert into a Python dict modelled as an association list with unique
keys: a later binding for the same key overwrites the earlier one. -/
def overwriteA (m : List (String × String)) (k v : String) : List (String × String) :=
  (m.filter (fun p => p.1 != k)) ++ [(k, v)]

def lookupA (m : List (String × String)) (k : String) : Option String :=
  (m.find? (fun p => p.1 == k)).map (·.2)

/-- The `column_mapping` dict: for each required column (in order), the
first header it flexibly matches, later required columns overwriting the
entry of a shared header. -/
def buildColMapping (headers : List String) : List (String × String) :=
  requiredCols.foldl
    (fun m req =>
      match headers.find? (fun c => colMatches req c) with
      | some c => overwriteA m c req
      | none => m)
    []

/-- The header list after the flexible rename (`df.rename(columns=...)`,
applied only when the mapping is non-empty). -/
def renamedHeaders (headers : List String) : List String :=
  let cmap := buildColMapping headers
  if cmap.isEmpty then headers
  else headers.map (fun c => (lookupA cmap c).getD c)

/-- The required columns still missing after the flexible rename. -/
def missingAfterRename (headers : List String) : List String :=
  requiredCols.filter (fun r => !(renamedHeaders headers).contains r)

/-- The column-schema validation of `parse_excel_mapping`: literal check,
flexible rename fallback, then the hard error naming the columns still
missing. -/
def validateMappingColumns (headers : List String) : Except String (List String) :=
  let missing := requiredCols.filter (fun r => !headers.contains r)
  if missing.isEmpty then .ok headers
  else
    let missing2 := missingAfterRename headers
    if missing2.isEmpty then .ok (renamedHeaders headers)
    else .error ("Required columns missing from Excel file: "
      ++ String.intercalate ", " missing2)

/-- Joining pieces back with a separator character (the inverse view of
`splitOnChar`). -/
def joinWithChar (sep : Char) : List (List Char) → List Char
  | [] => []
  | [p] => p
  | p :: ps => p ++ sep :: joinWithChar sep ps

/-- The number of matches of one join pattern in the statement. -/
def countJoinPat (q : String) (m : Option Char → List Char → Option Nat) : Nat :=
  countPat m q.data.length none q.data

/-! # Theorems -/

/-! ## Helper lemmas about the scanners -/

theorem scanSub_nil (f t : List Char) (fuel : Nat) (prev : Option Char) :
    scanSub f t fuel prev [] = [] := by
  cases fuel <;> simp [scanSub]

theorem scanSub_fuel (f t : List Char) :
    ∀ (fuel₁ : Nat) (l : List Char) (fuel₂ : Nat) (prev : Option Char),
      l.length ≤ fuel₁ → l.length ≤ fuel₂ →
      scanSub f t fuel₁ prev l = scanSub f t fuel₂ prev l := by
  intro fuel₁
  induction fuel₁ with
  | zero =>
    intro l fuel₂ prev h1 _
    have : l = [] := List.length_eq_zero.mp (Nat.le_zero.mp h1)
    subst this
    simp [scanSub_nil, scanSub]
  | succ n ih =>
    intro l fuel₂ prev h1 h2
    cases l with
    | nil => simp [scanSub_nil]
    | cons c cs =>
      cases fuel₂ with
      | zero => exact absurd h2 (by simp)
      | succ m =>
        simp only [scanSub]
        have h1c : cs.length ≤ n := by simpa using h1
        have h2c : cs.length ≤ m := by simpa using h2
        by_cases hm : matchStandalone f prev (c :: cs) = true
        · simp only [hm, if_true]
          have hlen : (cs.drop (f.length - 1)).length ≤ cs.length := by
            simp [List.length_drop]
          rw [ih _ m _ (le_trans hlen h1c) (le_trans hlen h2c)]
        · simp only [if_neg hm]
          rw [ih _ m _ h1c h2c]

theorem scanSub_id (f t : List Char) :
    ∀ (q : List Char) (fuel : Nat) (prev : Option Char),
      hasStandalone f prev q = false →
      scanSub f t fuel prev q = q := by
  intro q
  induction q with
  | nil => intro fuel prev _; exact scanSub_nil f t fuel prev
  | cons c cs ih =>
    intro fuel prev h
    cases fuel with
    | zero => rfl
    | succ n =>
      simp only [hasStandalone, Bool.or_eq_false_iff] at h
      have hm : ¬ matchStandalone f prev (c :: cs) = true := by simp [h.1]
      simp only [scanSub, if_neg hm]
      rw [ih n (some c) h.2]

theorem litPrefix_iff : ∀ (p l : List Char), litPrefix p l = true ↔ ∃ u, p ++ u = l := by
  intro p
  induction p with
  | nil => intro l; simp [litPrefix]
  | cons x xs ih =>
    intro l
    cases l with
    | nil => simp [litPrefix]
    | cons c cs =>
      simp only [litPrefix, Bool.and_eq_true, beq_iff_eq, ih cs, List.cons_append,
        List.cons.injEq]
      constructor
      · rintro ⟨hx, u, hu⟩; exact ⟨u, hx, hu⟩
      · rintro ⟨u, hx, hu⟩; exact ⟨hx, u, hu⟩

theorem litPrefix_self_append (p u : List Char) : litPrefix p (p ++ u) = true :=
  (litPrefix_iff p (p ++ u)).mpr ⟨u, rfl⟩

theorem litPrefix_length_le {p l : List Char} (h : litPrefix p l = true) :
    p.length ≤ l.length := by
  obtain ⟨u, hu⟩ := (litPrefix_iff p l).mp h
  subst hu; simp

theorem mem_of_getLast?_some {l : List Char} {x : Char} (h : l.getLast? = some x) :
    x ∈ l :=
  List.mem_of_getLast?_eq_some h

theorem lastOr_nil (prev : Option Char) : lastOr prev [] = prev := rfl

theorem lastOr_of_ne_nil {l : List Char} (prev : Option Char) (h : l ≠ []) :
    lastOr prev l = l.getLast? := by
  unfold lastOr
  cases hg : l.getLast? with
  | some c => rfl
  | none => exact absurd (List.getLast?_eq_none_iff.mp hg) h

theorem getLast?_cons_of_ne_nil {c : Char} {cs : List Char} (h : cs ≠ []) :
    (c :: cs).getLast? = cs.getLast? := by
  cases cs with
  | nil => exact absurd rfl h
  | cons b bs => simp

theorem getLast?_drop_of_ne_nil :
    ∀ (k : Nat) (l : List Char), l.drop k ≠ [] → (l.drop k).getLast? = l.getLast? := by
  intro k
  induction k with
  | zero => intro l _; rfl
  | succ n ih =>
    intro l h
    cases l with
    | nil => simp at h
    | cons c cs =>
      simp only [List.drop_succ_cons] at h ⊢
      rw [ih cs h]
      have hcs : cs ≠ [] := by
        intro hc; subst hc; simp at h
      exact (getLast?_cons_of_ne_nil hcs).symm

/-- Auxiliary: if `f ++ u = a ++ y` and `f` ends no later than `a` does,
then `f` matches at the head of `a` itself. -/
theorem litPrefix_of_append_eq {f u a y : List Char} (hu : f ++ u = a ++ y)
    (hle : f.length ≤ a.length) : litPrefix f a = true := by
  rcases List.append_eq_append_iff.mp hu with ⟨w, hw, _⟩ | ⟨w, hw, _⟩
  · exact (litPrefix_iff _ _).mpr ⟨w, hw.symm⟩
  · have hlen := congrArg List.length hw
    simp only [List.length_append] at hlen
    have hw0 : w.length = 0 := by omega
    rw [List.length_eq_zero.mp hw0, List.append_nil] at hw
    subst hw
    exact (litPrefix_iff _ _).mpr ⟨[], List.append_nil _⟩

/-- If the text `a` ends in a non-word character and the pattern `f`
consists of word characters only, then whether a standalone occurrence of
`f` starts at the head of `a` does not depend on what follows `a`. -/
theorem matchStandalone_append {f : List Char} (hw : ∀ c ∈ f, isWordChar c = true)
    {a : List Char} {x : Char} (hx : a.getLast? = some x)
    (hxw : isWordChar x = false) (y : List Char) (prev : Option Char) :
    matchStandalone f prev (a ++ y) = matchStandalone f prev a := by
  have hxa : x ∈ a := mem_of_getLast?_some hx
  have hnotpre : f.length ≥ a.length → litPrefix f a = false := by
    intro hge
    cases h : litPrefix f a with
    | false => rfl
    | true =>
      obtain ⟨u, hu⟩ := (litPrefix_iff _ _).mp h
      have hlen := congrArg List.length hu
      simp only [List.length_append] at hlen
      have hu0 : u.length = 0 := by omega
      rw [List.length_eq_zero.mp hu0, List.append_nil] at hu
      subst hu
      rw [hw x hxa] at hxw
      exact absurd hxw (by decide)
  by_cases hflen : a.length ≤ f.length
  · -- the pattern would have to swallow the non-word last character of `a`
    have hbig : litPrefix f (a ++ y) = false := by
      cases h : litPrefix f (a ++ y) with
      | false => rfl
      | true =>
        obtain ⟨u, hu⟩ := (litPrefix_iff _ _).mp h
        rcases List.append_eq_append_iff.mp hu with ⟨w, hvw, _⟩ | ⟨w, hvw, _⟩
        · -- a = f ++ w and a.length ≤ f.length force a = f
          have hlen := congrArg List.length hvw
          simp only [List.length_append] at hlen
          have hw0 : w.length = 0 := by omega
          rw [List.length_eq_zero.mp hw0, List.append_nil] at hvw
          subst hvw
          rw [hw x hxa] at hxw
          exact absurd hxw (by decide)
        · -- f = a ++ w: the last char of a lies inside f
          have hxf : x ∈ f := hvw ▸ List.mem_append_left _ hxa
          rw [hw x hxf] at hxw
          exact absurd hxw (by decide)
    unfold matchStandalone
    rw [hbig, hnotpre (by omega)]
    simp
  · -- f.length < a.length: occurrence (if any) lies strictly inside `a`
    have hlt : f.length < a.length := Nat.lt_of_not_le hflen
    have hpre : litPrefix f (a ++ y) = litPrefix f a := by
      cases hp : litPrefix f a with
      | true =>
        obtain ⟨u, hu⟩ := (litPrefix_iff _ _).mp hp
        exact (litPrefix_iff _ _).mpr ⟨u ++ y, by rw [← List.append_assoc, hu]⟩
      | false =>
        cases hb : litPrefix f (a ++ y) with
        | false => rfl
        | true =>
          obtain ⟨u, hu⟩ := (litPrefix_iff _ _).mp hb
          rw [litPrefix_of_append_eq hu (le_of_lt hlt)] at hp
          exact absurd hp (by decide)
    have hdrop : ((a ++ y).drop f.length).head? = (a.drop f.length).head? := by
      rw [List.drop_append_eq_append_drop, Nat.sub_eq_zero_of_le (le_of_lt hlt),
        List.drop_zero]
      have hne : a.drop f.length ≠ [] := by
        intro h
        have := congrArg List.length h
        simp only [List.length_drop, List.length_nil] at this
        omega
      obtain ⟨c, cs, hc⟩ := List.exists_cons_of_ne_nil hne
      rw [hc]
      simp
    unfold matchStandalone
    rw [hpre, hdrop]

theorem length_lt_of_matchStandalone {f : List Char} {prev : Option Char}
    {a : List Char} {x : Char} (hm : matchStandalone f prev a = true)
    (hw : ∀ c ∈ f, isWordChar c = true) (hx : a.getLast? = some x)
    (hxw : isWordChar x = false) : f.length < a.length := by
  unfold matchStandalone at hm
  simp only [Bool.and_eq_true] at hm
  have hp : litPrefix f a = true := hm.1.2
  obtain ⟨u, hu⟩ := (litPrefix_iff _ _).mp hp
  have hle : f.length ≤ a.length := litPrefix_length_le hp
  rcases Nat.lt_or_ge f.length a.length with h | h
  · exact h
  · have hlen := congrArg List.length hu
    simp only [List.length_append] at hlen
    have hu0 : u.length = 0 := by omega
    rw [List.length_eq_zero.mp hu0, List.append_nil] at hu
    subst hu
    rw [hw x (mem_of_getLast?_some hx)] at hxw
    exact absurd hxw (by decide)

theorem getLastD_congr {l : List Char} (h : l ≠ []) (d e : Char) :
    l.getLastD d = l.getLastD e := by
  cases hg : l.getLast? with
  | none => exact absurd (List.getLast?_eq_none_iff.mp hg) h
  | some c => simp [List.getLastD_eq_getLast?, hg]

theorem lastOr_cons (c : Char) (cs : List Char) :
    lastOr (some c) cs = (c :: cs).getLast? := by
  cases cs with
  | nil => simp [lastOr]
  | cons b bs => rw [lastOr_of_ne_nil _ (by simp), List.getLast?_cons_cons]

theorem scanSub_cons_of_match (f t : List Char) (fuel : Nat) (prev : Option Char)
    (c : Char) (cs : List Char) (hm : matchStandalone f prev (c :: cs) = true) :
    scanSub f t (fuel + 1) prev (c :: cs)
      = t ++ scanSub f t fuel (some (f.getLastD c)) (cs.drop (f.length - 1)) := by
  simp [scanSub, hm]

theorem scanSub_cons_of_not (f t : List Char) (fuel : Nat) (prev : Option Char)
    (c : Char) (cs : List Char) (hm : matchStandalone f prev (c :: cs) = false) :
    scanSub f t (fuel + 1) prev (c :: cs) = c :: scanSub f t fuel (some c) cs := by
  simp [scanSub, hm]

/-- Base case of the composition lemma: the designated occurrence sits at
the very start of the scanned text. -/
theorem scanSub_append_nil (f t y : List Char) (hf : f ≠ [])
    (hy : isWordOpt y.head? = false) (prev : Option Char)
    (hprev : isWordOpt prev = false) :
    scanSub f t (f.length + y.length) prev (f ++ y)
      = t ++ scanSub f t y.length (some (f.getLastD ' ')) y := by
  obtain ⟨fh, ft, hfc⟩ := List.exists_cons_of_ne_nil hf
  have hm : matchStandalone f prev (f ++ y) = true := by
    unfold matchStandalone
    rw [List.drop_left, litPrefix_self_append, hy, hprev, hfc]
    simp
  have hlen1 : (f ++ y).length ≤ f.length + y.length := by
    simp [List.length_append]
  have hstep : scanSub f t (f.length + y.length) prev (f ++ y)
      = scanSub f t ((ft ++ y).length + 1) prev (fh :: (ft ++ y)) := by
    rw [scanSub_fuel f t (f.length + y.length) (f ++ y) ((ft ++ y).length + 1) prev
      hlen1 (by subst hfc; simp [List.length_append])]
    subst hfc
    rw [List.cons_append]
  rw [hstep,
    scanSub_cons_of_match f t ((ft ++ y).length) prev fh (ft ++ y)
      (by rw [← List.cons_append, ← hfc]; exact hm)]
  have hdrop : (ft ++ y).drop (f.length - 1) = y :=
    List.drop_left' (by subst hfc; simp)
  have hgl : f.getLastD fh = f.getLastD ' ' := getLastD_congr hf fh ' '
  rw [hdrop, hgl,
    scanSub_fuel f t ((ft ++ y).length) y y.length (some (f.getLastD ' '))
      (by simp [List.length_append]) (le_refl _)]

/-- Core composition lemma: scanning `a ++ f ++ y`, where the pattern `f`
(nonempty, word characters only) sits between boundary-compatible context —
`a` ends in a non-word character (or is empty with a non-word `prev`) and
`y` starts with a non-word character (or is empty) — replaces that designated
occurrence by `t` and otherwise processes `a` and `y` exactly as it would in
isolation. -/
theorem scanSub_append (f t y : List Char) (hf : f ≠ [])
    (hw : ∀ c ∈ f, isWordChar c = true) (hy : isWordOpt y.head? = false) :
    ∀ (n : Nat) (a : List Char), a.length ≤ n →
      ∀ (prev : Option Char), isWordOpt (lastOr prev a) = false →
      scanSub f t (a.length + f.length + y.length) prev (a ++ f ++ y)
        = scanSub f t a.length prev a ++ t
            ++ scanSub f t y.length (some (f.getLastD ' ')) y := by
  intro n
  induction n with
  | zero =>
    intro a ha prev hprev
    have ha0 : a = [] := List.length_eq_zero.mp (Nat.le_zero.mp ha)
    subst ha0
    rw [lastOr_nil] at hprev
    simp only [List.nil_append, List.length_nil, Nat.zero_add, scanSub_nil]
    rw [scanSub_append_nil f t y hf hy prev hprev]
  | succ n ih =>
    intro a ha prev hprev
    cases a with
    | nil =>
      rw [lastOr_nil] at hprev
      simp only [List.nil_append, List.length_nil, Nat.zero_add, scanSub_nil]
      rw [scanSub_append_nil f t y hf hy prev hprev]
    | cons c cs =>
      have hcs : cs.length ≤ n := by simpa using ha
      rw [lastOr_of_ne_nil _ (by simp)] at hprev
      obtain ⟨x, hx⟩ : ∃ x, (c :: cs).getLast? = some x := by
        cases hg : (c :: cs).getLast? with
        | none => exact absurd (List.getLast?_eq_none_iff.mp hg) (by simp)
        | some z => exact ⟨z, rfl⟩
      rw [hx] at hprev
      have hxw : isWordChar x = false := hprev
      have hmeq : matchStandalone f prev (c :: (cs ++ f ++ y))
          = matchStandalone f prev (c :: cs) := by
        have h1 : c :: (cs ++ f ++ y) = (c :: cs) ++ (f ++ y) := by simp
        rw [h1, matchStandalone_append hw hx hxw]
      have hfuel : scanSub f t ((c :: cs).length + f.length + y.length) prev
            ((c :: cs) ++ f ++ y)
          = scanSub f t ((cs ++ f ++ y).length + 1) prev (c :: (cs ++ f ++ y)) := by
        rw [show (c :: cs) ++ f ++ y = c :: (cs ++ f ++ y) by simp]
        apply scanSub_fuel
        · simp [List.length_append]
          omega
        · simp [List.length_append]
      by_cases hm : matchStandalone f prev (c :: cs) = true
      · -- the designated scan step is a match inside `a`
        have hlt : f.length < (c :: cs).length :=
          length_lt_of_matchStandalone hm hw hx hxw
        have hlen : f.length ≤ cs.length := by
          simp only [List.length_cons] at hlt
          omega
        have hfl : 1 ≤ f.length := by
          cases f with
          | nil => exact absurd rfl hf
          | cons _ _ => simp
        have hcsne : cs ≠ [] := by
          intro h
          subst h
          simp only [List.length_nil] at hlen
          omega
        have ha2len : (cs.drop (f.length - 1)).length = cs.length - (f.length - 1) := by
          simp
        have ha2ne : cs.drop (f.length - 1) ≠ [] := by
          intro h
          have := congrArg List.length h
          rw [ha2len] at this
          simp only [List.length_nil] at this
          omega
        have ha2last : (cs.drop (f.length - 1)).getLast? = some x := by
          rw [getLast?_drop_of_ne_nil _ _ ha2ne, ← getLast?_cons_of_ne_nil hcsne]
          exact hx
        have hdropped : (cs ++ f ++ y).drop (f.length - 1)
            = cs.drop (f.length - 1) ++ f ++ y := by
          have h0 : f.length - 1 - cs.length = 0 := by omega
          rw [List.append_assoc cs f y, List.drop_append_eq_append_drop, h0,
            List.drop_zero, List.append_assoc (cs.drop (f.length - 1)) f y]
        rw [hfuel, scanSub_cons_of_match f t _ _ _ _ (by rwa [hmeq]), hdropped]
        have hihfuel : scanSub f t ((cs ++ f ++ y).length) (some (f.getLastD c))
              (cs.drop (f.length - 1) ++ f ++ y)
            = scanSub f t ((cs.drop (f.length - 1)).length + f.length + y.length)
                (some (f.getLastD c)) (cs.drop (f.length - 1) ++ f ++ y) := by
          apply scanSub_fuel
          · simp only [List.length_append, List.length_drop]
            omega
          · simp only [List.length_append, List.length_drop]
            omega
        rw [hihfuel,
          ih (cs.drop (f.length - 1)) (by rw [ha2len]; omega) (some (f.getLastD c))
            (by rw [lastOr_of_ne_nil _ ha2ne, ha2last]; exact hxw)]
        rw [show (c :: cs).length = cs.length + 1 from by simp,
          scanSub_cons_of_match f t _ _ _ _ hm,
          scanSub_fuel f t cs.length (cs.drop (f.length - 1))
            ((cs.drop (f.length - 1)).length) (some (f.getLastD c))
            (by simp) (le_refl _)]
        simp [List.append_assoc]
      · have hm' : matchStandalone f prev (c :: cs) = false := by
          cases h : matchStandalone f prev (c :: cs) with
          | false => rfl
          | true => exact absurd h hm
        rw [hfuel, scanSub_cons_of_not f t _ _ _ _ (by rwa [hmeq])]
        have hihfuel : scanSub f t ((cs ++ f ++ y).length) (some c) (cs ++ f ++ y)
            = scanSub f t (cs.length + f.length + y.length) (some c)
                (cs ++ f ++ y) := by
          apply scanSub_fuel
          · simp only [List.length_append]
            omega
          · simp only [List.length_append]
            omega
        rw [hihfuel,
          ih cs hcs (some c) (by rw [lastOr_cons, hx]; exact hxw)]
        rw [show (c :: cs).length = cs.length + 1 from by simp,
          scanSub_cons_of_not f t _ _ _ _ hm']
        simp

theorem lastOr_none (l : List Char) : lastOr none l = l.getLast? := by
  unfold lastOr
  cases l.getLast? <;> rfl

theorem data_ne_nil {f : String} (hf : f ≠ "") : f.data ≠ [] := by
  intro h
  apply hf
  cases f with
  | mk l =>
    have hl : l = [] := h
    rw [hl]

/-- C2: in flat field mode, for every mapping rule `(field = f, target = t,
scope = s)` (nonempty `f` made of identifier characters, nonempty `t`) and
every query containing a standalone occurrence of `f` — written `a ++ f ++ b`
with `a` not ending and `b` not starting in a letter, digit or underscore —
the rewritten query contains `s.t` (or `t` if the scope is empty or the
"nan" sentinel) exactly in place of that occurrence, the context being
rewritten exactly as it would be on its own; and a query whose occurrences
of `f` are all only substrings of larger identifiers (no standalone
occurrence) is left completely unchanged. -/
theorem claim_C2_flat_field_mode
    (f t s a b q : String) (hf : f ≠ "") (ht : t ≠ "")
    (hw : ∀ c ∈ f.data, isWordChar c = true)
    (ha : isWordOpt a.data.getLast? = false)
    (hb : isWordOpt b.data.head? = false) :
    flatFieldStandalonePass f t s (a ++ f ++ b)
      = String.mk (scanSub f.data (scopedTarget s t).data a.data.length none a.data
          ++ (scopedTarget s t).data
          ++ scanSub f.data (scopedTarget s t).data b.data.length
              (some (f.data.getLastD ' ')) b.data)
    ∧ (hasStandalone f.data none q.data = false →
        flatFieldStandalonePass f t s q = q) := by
  have hcond : ¬ (f = "" ∨ t = "") := by
    push_neg
    exact ⟨hf, ht⟩
  constructor
  · unfold flatFieldStandalonePass
    rw [if_neg hcond]
    have hdata : (a ++ f ++ b).data = a.data ++ f.data ++ b.data := by
      simp [String.data_append]
    congr 1
    rw [hdata]
    have hlen : (a.data ++ f.data ++ b.data).length
        = a.data.length + f.data.length + b.data.length := by
      simp only [List.length_append]
    rw [hlen]
    exact scanSub_append f.data (scopedTarget s t).data b.data (data_ne_nil hf) hw hb
      a.data.length a.data (le_refl _) none (by rw [lastOr_none]; exact ha)
  · intro h
    unfold flatFieldStandalonePass
    rw [if_neg hcond, scanSub_id f.data _ q.data _ none h]

theorem claim_C2_flat_field_mode_witness :
    flatFieldStandalonePass "field" "fld" "cust" ("SELECT " ++ "field" ++ " WHERE 1")
      = String.mk (scanSub "field".data (scopedTarget "cust" "fld").data
            "SELECT ".data.length none "SELECT ".data
          ++ (scopedTarget "cust" "fld").data
          ++ scanSub "field".data (scopedTarget "cust" "fld").data
              " WHERE 1".data.length (some ("field".data.getLastD ' ')) " WHERE 1".data)
    ∧ flatFieldStandalonePass "field" "fld" "cust" "SELECT field_id FROM t"
      = "SELECT field_id FROM t"
    ∧ flatFieldStandalonePass "field" "fld" "cust" "SELECT field FROM t"
      = "SELECT cust.fld FROM t" :=
  ⟨(claim_C2_flat_field_mode "field" "fld" "cust" "SELECT " " WHERE 1"
      "SELECT field_id FROM t" (by decide) (by decide) (by decide) (by decide)
      (by decide)).1,
   (claim_C2_flat_field_mode "field" "fld" "cust" "SELECT " " WHERE 1"
      "SELECT field_id FROM t" (by decide) (by decide) (by decide) (by decide)
      (by decide)).2 (by decide),
   by decide⟩

/-! ## Claim C1 — table renaming corrupts similar names and string literals -/

/-- C1 (code defect, evaluated): the FROM-clause rename pattern has no
trailing word boundary and no string-literal awareness, so renaming
`orders` to `new_orders` (i) corrupts the unrelated identifier
`orders_archive` into `new_orders_archive`, and (ii) rewrites the text
inside the string literal `'FROM orders x'` — both contradicting the claim
that only genuine whole-identifier occurrences outside string literals are
replaced. -/
theorem claim_C1_code_bug_eval :
    rewriteQuery "SELECT * FROM orders_archive" [("orders", "new_orders")] []
      = .ok "SELECT * FROM new_orders_archive"
    ∧ rewriteQuery "SELECT c FROM t WHERE note = 'FROM orders x'"
        [("orders", "new_orders")] []
      = .ok "SELECT c FROM t WHERE note = 'FROM new_orders x'" :=
  ⟨by decide, by decide⟩

/-! ## Claim C7 — raw targets in replacement templates -/

/-- C7 (code defect, evaluated): source identifiers are `re.escape`d in the
patterns, but target identifiers are interpolated raw into the `re.sub`
replacement templates.  A target of `\1` is interpreted as a group
back-reference — the table name silently vanishes instead of becoming the
literal `\1` — and a target of `\g` raises `re.error` (modelled as
`.error`), aborting the whole rewrite. -/
theorem claim_C7_code_bug_eval :
    rewriteQuery "SELECT * FROM orders" [("orders", "\\1")] []
      = .ok "SELECT * FROM "
    ∧ rewriteQuery "SELECT * FROM orders" [("orders", "\\g")] []
      = .error "missing <" :=
  ⟨by decide, by decide⟩

/-! ## Claim C6 — the subquery count -/

/-- C6: for every statement, the reported subquery count is the number of
`SELECT` keyword occurrences minus one, floored at zero; in particular a
statement with no `SELECT` keyword reports zero subqueries. -/
theorem claim_C6_subquery_count (q : String) :
    ((detectSubqueries q : Int) = max 0 ((countSelectKw q : Int) - 1))
    ∧ (countSelectKw q = 0 → detectSubqueries q = 0) := by
  constructor
  · unfold detectSubqueries
    exact Int.toNat_of_nonneg (le_max_left 0 _)
  · intro h
    unfold detectSubqueries
    rw [h]
    rfl

theorem claim_C6_subquery_count_witness :
    countSelectKw "DELETE FROM logs" = 0 ∧ detectSubqueries "DELETE FROM logs" = 0 :=
  ⟨by decide, (claim_C6_subquery_count "DELETE FROM logs").2 (by decide)⟩

/-! ## Claim C10 — a `*` anywhere in the clause collapses the field list -/

/-- C10: whenever the text between the first `SELECT` and the first
following `FROM` contains the character `*` anywhere, the extracted
field list is exactly `["*"]`, every other listed field being discarded. -/
theorem claim_C10_star_collapses (q : String) (clause : List Char)
    (h : searchSelectClause q.data = some clause)
    (hstar : clause.contains '*' = true) :
    extractSelectFields q = ["*"] := by
  unfold extractSelectFields
  rw [h]
  exact if_pos hstar

theorem claim_C10_star_collapses_witness :
    (searchSelectClause "SELECT name, COUNT(*) FROM t".data
        = some "name, COUNT(*)".data
      ∧ ("name, COUNT(*)".data).contains '*' = true)
    ∧ extractSelectFields "SELECT name, COUNT(*) FROM t" = ["*"] :=
  ⟨⟨by decide, by decide⟩,
   claim_C10_star_collapses "SELECT name, COUNT(*) FROM t" "name, COUNT(*)".data
     (by decide) (by decide)⟩

/-! ## Claim C3 — the complexity score -/

/-- C3 counterexample: on `DROP TABLE subquery` the claim's score (joins,
positive subquery count, UNION, GROUP BY, ORDER BY, HAVING, table count) is
`0`, so the claim demands the label `Simple`; the code also adds `+3` for
the mere word `SUBQUERY` and labels the statement `Medium`. -/
theorem claim_C3_counterexample :
    claimScoreC3 "DROP TABLE subquery" = 0
    ∧ assessComplexity "DROP TABLE subquery" = "Medium" :=
  ⟨by decide, by decide⟩

/-- C3 (amended): the label thresholds are as claimed (`Simple` iff score
≤ 2, `Medium` iff 3–5, `Complex` iff ≥ 6), over the score that additionally
gains `+3` when the literal word `SUBQUERY` occurs even with a zero
subquery count. -/
theorem claim_C3_amended (q : String) :
    (assessComplexity q = "Simple" ↔ complexityScore q ≤ 2)
    ∧ (assessComplexity q = "Medium"
        ↔ (3 ≤ complexityScore q ∧ complexityScore q ≤ 5))
    ∧ (assessComplexity q = "Complex" ↔ 6 ≤ complexityScore q)
    ∧ complexityScore q
        = (if hasPat (wordB "JOIN".data) q then 2 else 0)
          + (if 0 < detectSubqueries q ∨ hasPat (wordB "SUBQUERY".data) q then 3 else 0)
          + (if hasPat (wordB "UNION".data) q then 2 else 0)
          + (if hasPat (wordPairB "GROUP".data "BY".data) q then 1 else 0)
          + (if hasPat (wordPairB "ORDER".data "BY".data) q then 1 else 0)
          + (if hasPat (wordB "HAVING".data) q then 2 else 0)
          + (extractTables q).length := by
  refine ⟨?_, ?_, ?_, ?_⟩
  · unfold assessComplexity
    by_cases h1 : complexityScore q ≤ 2
    · simp [h1]
    · by_cases h2 : complexityScore q ≤ 5 <;> simp [h1, h2]
  · unfold assessComplexity
    by_cases h1 : complexityScore q ≤ 2
    · simp [h1] <;> omega
    · by_cases h2 : complexityScore q ≤ 5 <;> simp [h1, h2] <;> omega
  · unfold assessComplexity
    by_cases h1 : complexityScore q ≤ 2
    · simp [h1] <;> omega
    · by_cases h2 : complexityScore q ≤ 5 <;> simp [h1, h2] <;> omega
  · unfold complexityScore
    by_cases ha : hasPat (wordB "SUBQUERY".data) q = true <;>
      by_cases hb : 0 < detectSubqueries q <;>
        simp [ha, hb]

/-! ## Claim C5 — the SELECT-clause field pipeline -/

theorem splitOnChar_ne_nil (sep : Char) : ∀ l : List Char, splitOnChar sep l ≠ [] := by
  intro l
  induction l with
  | nil => simp [splitOnChar]
  | cons c cs ih =>
    unfold splitOnChar
    by_cases h : c == sep
    · simp [h]
    · simp only [h]
      cases hs : splitOnChar sep cs with
      | nil => exact absurd hs ih
      | cons p ps => simp

theorem joinWithChar_splitOnChar (sep : Char) :
    ∀ l : List Char, joinWithChar sep (splitOnChar sep l) = l := by
  intro l
  induction l with
  | nil => rfl
  | cons c cs ih =>
    unfold splitOnChar
    by_cases h : c == sep
    · have hc : c = sep := by simpa using h
      simp only [h, if_true]
      obtain ⟨x, xs, hs⟩ := List.exists_cons_of_ne_nil (splitOnChar_ne_nil sep cs)
      rw [hs]
      show [] ++ sep :: joinWithChar sep (x :: xs) = c :: cs
      rw [List.nil_append, ← hs, ih, hc]
    · simp only [h]
      obtain ⟨p, ps, hs⟩ := List.exists_cons_of_ne_nil (splitOnChar_ne_nil sep cs)
      rw [hs]
      cases ps with
      | nil =>
        show c :: p = c :: cs
        have : joinWithChar sep [p] = p := rfl
        rw [hs] at ih
        simp only [joinWithChar] at ih
        rw [ih]
      | cons y ys =>
        show (c :: p) ++ sep :: joinWithChar sep (y :: ys) = c :: cs
        rw [hs] at ih
        have hj : joinWithChar sep (p :: y :: ys)
            = p ++ sep :: joinWithChar sep (y :: ys) := rfl
        rw [hj] at ih
        rw [List.cons_append, ih]

theorem splitOnChar_pieces (sep : Char) :
    ∀ (l : List Char) (p : List Char), p ∈ splitOnChar sep l → sep ∉ p := by
  intro l
  induction l with
  | nil =>
    intro p hp
    simp only [splitOnChar, List.mem_singleton] at hp
    simp [hp]
  | cons c cs ih =>
    intro p hp
    unfold splitOnChar at hp
    by_cases h : c == sep
    · simp only [h, if_true, List.mem_cons] at hp
      rcases hp with h1 | h1
      · simp [h1]
      · exact ih p h1
    · simp only [h] at hp
      obtain ⟨p0, ps, hs⟩ := List.exists_cons_of_ne_nil (splitOnChar_ne_nil sep cs)
      rw [hs] at hp
      rcases hp with _ | ⟨_, hmem2⟩
      · intro hmemc
        rcases List.mem_cons.mp hmemc with hc | hc
        · rw [hc] at h
          simp at h
        · exact ih p0 (by rw [hs]; exact List.mem_cons_self p0 ps) hc
      · exact ih p (by rw [hs]; exact List.mem_cons_of_mem p0 hmem2)

/-- C5 counterexample: the comma split is not parenthesis-aware.  On
`SELECT CONCAT(a, b) FROM t` the claim demands a single selected item (the
comma sits inside the function call), but the extractor splits there and
reports the two corrupted fragments `CONCAT(a` and `b)`. -/
theorem claim_C5_counterexample :
    extractSelectFields "SELECT CONCAT(a, b) FROM t" = ["CONCAT(a", "b)"]
    ∧ (extractSelectFields "SELECT CONCAT(a, b) FROM t").length ≠ 1 :=
  ⟨by decide, by decide⟩

/-- C5 (amended): for a statement with a SELECT clause not containing `*`,
the field list is obtained by splitting the clause at **every** comma —
the pieces of the split contain no comma at all and rejoin with commas to
the clause, so a comma inside a function call's parentheses also splits —
then stripping each piece and processing it with `processSelectField`
(truncation at a literal uppercase ` AS `, last dot-component, one level of
function-call unwrapping, quote stripping), discarding empty results. -/
theorem claim_C5_amended (q : String) (clause : List Char)
    (h : searchSelectClause q.data = some clause)
    (hstar : clause.contains '*' = false) :
    extractSelectFields q
      = ((((splitOnChar ',' clause).map pyStripWs).map processSelectField).map
          String.mk).filter (· ≠ "")
    ∧ joinWithChar ',' (splitOnChar ',' clause) = clause
    ∧ ∀ piece ∈ splitOnChar ',' clause, ',' ∉ piece := by
  refine ⟨?_, joinWithChar_splitOnChar ',' clause, splitOnChar_pieces ',' clause⟩
  unfold extractSelectFields
  rw [h]
  exact if_neg (by rw [hstar]; decide)

theorem claim_C5_amended_witness :
    (searchSelectClause "SELECT t.name AS n, UPPER(city) FROM t".data
        = some "t.name AS n, UPPER(city)".data
      ∧ ("t.name AS n, UPPER(city)".data).contains '*' = false)
    ∧ extractSelectFields "SELECT t.name AS n, UPPER(city) FROM t"
      = ((((splitOnChar ',' "t.name AS n, UPPER(city)".data).map pyStripWs).map
          processSelectField).map String.mk).filter (· ≠ "")
    ∧ extractSelectFields "SELECT t.name AS n, UPPER(city) FROM t" = ["name", "city"] :=
  ⟨⟨by decide, by decide⟩,
   (claim_C5_amended "SELECT t.name AS n, UPPER(city) FROM t"
     "t.name AS n, UPPER(city)".data (by decide) (by decide)).1,
   by decide⟩

/-! ## Claim C8 — the tabular report -/

/-- C8 counterexample: on a statement whose where-condition fragments are
`a = 1` and `b = 2`, the `Where Conditions` cell of its report row holds the
count `2`, not the comma-joined string `a = 1, b = 2` the claim demands. -/
theorem claim_C8_counterexample :
    (analyzeQuery "SELECT x FROM t WHERE a = 1 AND b = 2").where_conditions
      = ["a = 1", "b = 2"]
    ∧ (createAnalysisRow
        (analyzeQuery "SELECT x FROM t WHERE a = 1 AND b = 2")).lookup
          "Where Conditions" = some "2"
    ∧ ("2" : String)
      ≠ String.intercalate ", "
          (analyzeQuery "SELECT x FROM t WHERE a = 1 AND b = 2").where_conditions :=
  ⟨by decide, by decide, by decide⟩

/-- C8 (amended): the report has one row per analyzed statement; the
list-valued fields Tables Used, Selected Fields, Temporary Tables, Join
Types and Functions Used are rendered comma-joined; the `Where Conditions`
column however holds the **count** of the statement's where-condition
fragments, not their comma-joined text. -/
theorem claim_C8_amended (rs : List QueryAnalysis) (r : QueryAnalysis) :
    (createAnalysisDataframe rs).length = rs.length
    ∧ (createAnalysisRow r).lookup "Tables Used"
      = some (String.intercalate ", " r.tables_used)
    ∧ (createAnalysisRow r).lookup "Selected Fields"
      = some (String.intercalate ", " r.fields_selected)
    ∧ (createAnalysisRow r).lookup "Temporary Tables"
      = some (String.intercalate ", " r.temp_tables)
    ∧ (createAnalysisRow r).lookup "Join Types"
      = some (String.intercalate ", " r.join_info.join_types)
    ∧ (createAnalysisRow r).lookup "Functions Used"
      = some (String.intercalate ", " r.functions_used)
    ∧ (createAnalysisRow r).lookup "Where Conditions"
      = some (toString r.where_conditions.length) := by
  refine ⟨?_, rfl, rfl, rfl, rfl, rfl, rfl⟩
  simp [createAnalysisDataframe]

/-! ## Claim C4 — join analysis -/

theorem joinStep_foldl_count (q : String) :
    ∀ (ps : List (String × (Option Char → List Char → Option Nat))) (ji : JoinInfo),
      (ps.foldl (joinStep q) ji).join_count
        = ji.join_count + (ps.map (fun p => countJoinPat q p.2)).sum := by
  intro ps
  induction ps with
  | nil => intro ji; simp
  | cons p ps ih =>
    intro ji
    simp only [List.foldl_cons, List.map_cons, List.sum_cons]
    rw [ih]
    unfold joinStep
    by_cases h : 0 < countPat p.2 q.data.length none q.data
    · rw [if_pos h]
      show ji.join_count + countPat p.2 q.data.length none q.data + _ = _
      unfold countJoinPat
      omega
    · rw [if_neg h]
      unfold countJoinPat
      omega

theorem joinStep_foldl_has (q : String) :
    ∀ (ps : List (String × (Option Char → List Char → Option Nat))) (ji : JoinInfo),
      (ps.foldl (joinStep q) ji).has_joins
        = (ji.has_joins || decide (0 < (ps.map (fun p => countJoinPat q p.2)).sum)) := by
  intro ps
  induction ps with
  | nil => intro ji; simp
  | cons p ps ih =>
    intro ji
    simp only [List.foldl_cons, List.map_cons, List.sum_cons]
    rw [ih]
    unfold joinStep
    by_cases h : 0 < countPat p.2 q.data.length none q.data
    · rw [if_pos h]
      show (true || _) = _
      have hpos : (0 < countJoinPat q p.2 + (ps.map (fun p => countJoinPat q p.2)).sum) := by
        unfold countJoinPat
        omega
      simp [hpos]
    · rw [if_neg h]
      have h0' : countJoinPat q p.2 = 0 := by
        unfold countJoinPat
        omega
      simp only [h0', Nat.zero_add]

theorem joinStep_foldl_types_mono (q : String) :
    ∀ (ps : List (String × (Option Char → List Char → Option Nat))) (ji : JoinInfo)
      (lbl : String), lbl ∈ ji.join_types → lbl ∈ (ps.foldl (joinStep q) ji).join_types := by
  intro ps
  induction ps with
  | nil => intro ji lbl h; simpa using h
  | cons p ps ih =>
    intro ji lbl h
    simp only [List.foldl_cons]
    apply ih
    unfold joinStep
    by_cases hc : 0 < countPat p.2 q.data.length none q.data
    · rw [if_pos hc]
      exact List.mem_append_left _ h
    · rw [if_neg hc]
      exact h

theorem joinStep_foldl_types_mem (q : String) :
    ∀ (ps : List (String × (Option Char → List Char → Option Nat))) (ji : JoinInfo)
      (p₀ : String × (Option Char → List Char → Option Nat)),
      p₀ ∈ ps → 0 < countJoinPat q p₀.2 →
      p₀.1 ∈ (ps.foldl (joinStep q) ji).join_types := by
  intro ps
  induction ps with
  | nil => intro ji p₀ h; simp at h
  | cons p ps ih =>
    intro ji p₀ hmem hpos
    simp only [List.foldl_cons]
    rcases List.mem_cons.mp hmem with heq | htail
    · subst heq
      apply joinStep_foldl_types_mono
      unfold joinStep
      have hc : 0 < countPat p₀.2 q.data.length none q.data := hpos
      rw [if_pos hc]
      exact List.mem_append_right _ (List.mem_singleton.mpr rfl)
    · exact ih _ p₀ htail hpos

/-- C4: join analysis counts every keyword occurrence once per join-kind
pattern it matches: the total `join_count` is the sum of the per-kind match
counts (so the bare-`JOIN` pattern double-counts each specific join), a
statement with exactly one `INNER JOIN` and no other join keywords reports
`join_count = 2` with both the `INNER JOIN` and the bare `JOIN` label
present, and `has_joins` holds exactly when at least one join pattern
matched. -/
theorem claim_C4_join_analysis (q : String) :
    ((analyzeJoins q).has_joins = decide (0 < (analyzeJoins q).join_count))
    ∧ (analyzeJoins q).join_count
        = countJoinPat q (wordPairB "INNER".data "JOIN".data)
          + countJoinPat q (wordOptOuterJoin "LEFT".data)
          + countJoinPat q (wordOptOuterJoin "RIGHT".data)
          + countJoinPat q (wordOptOuterJoin "FULL".data)
          + countJoinPat q (wordPairB "CROSS".data "JOIN".data)
          + countJoinPat q (wordB "JOIN".data)
    ∧ (countJoinPat q (wordPairB "INNER".data "JOIN".data) = 1
        → countJoinPat q (wordOptOuterJoin "LEFT".data) = 0
        → countJoinPat q (wordOptOuterJoin "RIGHT".data) = 0
        → countJoinPat q (wordOptOuterJoin "FULL".data) = 0
        → countJoinPat q (wordPairB "CROSS".data "JOIN".data) = 0
        → countJoinPat q (wordB "JOIN".data) = 1
        → (analyzeJoins q).join_count = 2
          ∧ "INNER JOIN" ∈ (analyzeJoins q).join_types
          ∧ "JOIN" ∈ (analyzeJoins q).join_types) := by
  have hproj_count : (analyzeJoins q).join_count
      = (joinPatterns.foldl (joinStep q)
          { has_joins := false, join_types := [], join_count := 0,
            joined_tables := [] }).join_count := rfl
  have hproj_has : (analyzeJoins q).has_joins
      = (joinPatterns.foldl (joinStep q)
          { has_joins := false, join_types := [], join_count := 0,
            joined_tables := [] }).has_joins := rfl
  have hproj_types : (analyzeJoins q).join_types
      = (joinPatterns.foldl (joinStep q)
          { has_joins := false, join_types := [], join_count := 0,
            joined_tables := [] }).join_types := rfl
  have hsum : (analyzeJoins q).join_count
      = countJoinPat q (wordPairB "INNER".data "JOIN".data)
        + countJoinPat q (wordOptOuterJoin "LEFT".data)
        + countJoinPat q (wordOptOuterJoin "RIGHT".data)
        + countJoinPat q (wordOptOuterJoin "FULL".data)
        + countJoinPat q (wordPairB "CROSS".data "JOIN".data)
        + countJoinPat q (wordB "JOIN".data) := by
    rw [hproj_count, joinStep_foldl_count]
    simp only [joinPatterns, List.map_cons, List.map_nil, List.sum_cons, List.sum_nil]
    omega
  refine ⟨?_, hsum, ?_⟩
  · rw [hproj_has, joinStep_foldl_has, hproj_count, joinStep_foldl_count]
    simp
  · intro h1 h2 h3 h4 h5 h6
    refine ⟨by rw [hsum, h1, h2, h3, h4, h5, h6], ?_, ?_⟩
    · rw [hproj_types]
      apply joinStep_foldl_types_mem q joinPatterns _
        ("INNER JOIN", wordPairB "INNER".data "JOIN".data)
      · unfold joinPatterns
        exact List.mem_cons_self _ _
      · show 0 < countJoinPat q (wordPairB "INNER".data "JOIN".data)
        omega
    · rw [hproj_types]
      apply joinStep_foldl_types_mem q joinPatterns _ ("JOIN", wordB "JOIN".data)
      · unfold joinPatterns
        apply List.mem_cons_of_mem
        apply List.mem_cons_of_mem
        apply List.mem_cons_of_mem
        apply List.mem_cons_of_mem
        apply List.mem_cons_of_mem
        exact List.mem_cons_self _ _
      · show 0 < countJoinPat q (wordB "JOIN".data)
        omega

theorem claim_C4_join_analysis_witness :
    (countJoinPat "SELECT * FROM a INNER JOIN b ON a.x = b.y"
        (wordPairB "INNER".data "JOIN".data) = 1
      ∧ countJoinPat "SELECT * FROM a INNER JOIN b ON a.x = b.y"
        (wordOptOuterJoin "LEFT".data) = 0
      ∧ countJoinPat "SELECT * FROM a INNER JOIN b ON a.x = b.y"
        (wordOptOuterJoin "RIGHT".data) = 0
      ∧ countJoinPat "SELECT * FROM a INNER JOIN b ON a.x = b.y"
        (wordOptOuterJoin "FULL".data) = 0
      ∧ countJoinPat "SELECT * FROM a INNER JOIN b ON a.x = b.y"
        (wordPairB "CROSS".data "JOIN".data) = 0
      ∧ countJoinPat "SELECT * FROM a INNER JOIN b ON a.x = b.y"
        (wordB "JOIN".data) = 1)
    ∧ ((analyzeJoins "SELECT * FROM a INNER JOIN b ON a.x = b.y").join_count = 2
      ∧ "INNER JOIN" ∈ (analyzeJoins "SELECT * FROM a INNER JOIN b ON a.x = b.y").join_types
      ∧ "JOIN" ∈ (analyzeJoins "SELECT * FROM a INNER JOIN b ON a.x = b.y").join_types) :=
  ⟨⟨by decide, by decide, by decide, by decide, by decide, by decide⟩,
   (claim_C4_join_analysis "SELECT * FROM a INNER JOIN b ON a.x = b.y").2.2
     (by decide) (by decide) (by decide) (by decide) (by decide) (by decide)⟩

/-! ## Claim C9 — mapping-schema validation -/

theorem litPrefix_refl : ∀ l : List Char, litPrefix l l = true := by
  intro l
  induction l with
  | nil => rfl
  | cons c cs ih => simp [litPrefix, ih]

theorem containsSeq_self : ∀ l : List Char, containsSeq l l = true := by
  intro l
  cases l with
  | nil => rfl
  | cons c cs => simp [containsSeq, litPrefix_refl]

theorem colMatches_self (r : String) : colMatches r r = true :=
  containsSeq_self _

theorem string_contains_iff (l : List String) (a : String) :
    l.contains a = true ↔ a ∈ l :=
  List.elem_iff

theorem lookupA_nil (k : String) : lookupA [] k = none := rfl

theorem find?_filter_ne (m : List (String × String)) (k k' : String) (hne : k' ≠ k) :
    (m.filter (fun p => p.1 != k)).find? (fun p => p.1 == k')
      = m.find? (fun p => p.1 == k') := by
  induction m with
  | nil => rfl
  | cons p ps ih =>
    by_cases hk : p.1 == k'
    · have hp1 : p.1 = k' := by simpa using hk
      have hkeep : (p.1 != k) = true := by
        simp [hp1]
        exact hne
      simp only [List.filter_cons, hkeep, if_true, List.find?_cons, hk]
    · have hk' : (p.1 == k') = false := by
        cases h : (p.1 == k') with
        | false => rfl
        | true => exact absurd h hk
      by_cases hkeep : (p.1 != k) = true
      · simp only [List.filter_cons, hkeep, if_true, List.find?_cons, hk']
        exact ih
      · have hdrop : (p.1 != k) = false := by
          cases h : (p.1 != k) with
          | false => rfl
          | true => exact absurd h hkeep
        simp only [List.filter_cons, hdrop, List.find?_cons, hk']
        simp only [Bool.false_eq_true, if_false]
        exact ih

theorem lookupA_overwriteA_self (m : List (String × String)) (k v : String) :
    lookupA (overwriteA m k v) k = some v := by
  unfold lookupA overwriteA
  rw [List.find?_append]
  have hnone : (m.filter (fun p => p.1 != k)).find? (fun p => p.1 == k) = none := by
    rw [List.find?_eq_none]
    intro p hp
    have h2 := (List.mem_filter.mp hp).2
    intro hc
    have : p.1 = k := by simpa using hc
    simp [this] at h2
  rw [hnone]
  simp

theorem lookupA_overwriteA_ne (m : List (String × String)) (k v k' : String)
    (hne : k' ≠ k) : lookupA (overwriteA m k v) k' = lookupA m k' := by
  unfold lookupA overwriteA
  rw [List.find?_append, find?_filter_ne m k k' hne]
  cases h : m.find? (fun p => p.1 == k') with
  | some p => simp
  | none =>
    simp only [Option.none_or]
    have : ((k, v).1 == k') = false := by
      simp
      exact fun h => hne h.symm
    simp [List.find?_cons, this]

/-- One fold step of `buildColMapping`. -/
theorem buildStep_lookup_ne (headers : List String) (m : List (String × String))
    (r' : String) (c : String)
    (hne : headers.find? (fun c' => colMatches r' c') ≠ some c) :
    lookupA ((fun m req =>
      match headers.find? (fun c' => colMatches req c') with
      | some c' => overwriteA m c' req
      | none => m) m r') c = lookupA m c := by
  cases hf : headers.find? (fun c' => colMatches r' c') with
  | none => simp only [hf]
  | some c' =>
    have hcc : c ≠ c' := by
      intro h
      exact hne (by rw [hf, h])
    simp only [hf]
    exact lookupA_overwriteA_ne m c' r' c hcc

theorem buildFold_keeps (headers : List String) (r c : String)
    (hfind : headers.find? (fun c' => colMatches r c') = some c) :
    ∀ (rest : List String) (m : List (String × String)),
      lookupA m c = some r →
      (∀ r' ∈ rest, r' ≠ r → headers.find? (fun c' => colMatches r' c') ≠ some c) →
      lookupA (rest.foldl (fun m req =>
        match headers.find? (fun c' => colMatches req c') with
        | some c' => overwriteA m c' req
        | none => m) m) c = some r := by
  intro rest
  induction rest with
  | nil => intro m hm _; exact hm
  | cons r0 rest ih =>
    intro m hm hno
    simp only [List.foldl_cons]
    by_cases h0 : r0 = r
    · subst h0
      apply ih
      · rw [hfind]
        exact lookupA_overwriteA_self m c r0
      · intro r' hr' hner
        exact hno r' (List.mem_cons_of_mem _ hr') hner
    · apply ih
      · rw [buildStep_lookup_ne headers m r0 c
          (hno r0 (List.mem_cons_self _ _) h0)]
        exact hm
      · intro r' hr' hner
        exact hno r' (List.mem_cons_of_mem _ hr') hner

theorem buildFold_lookup (headers : List String) (r c : String)
    (hfind : headers.find? (fun c' => colMatches r c') = some c) :
    ∀ (rs : List String) (m : List (String × String)),
      r ∈ rs →
      (∀ r' ∈ rs, r' ≠ r → headers.find? (fun c' => colMatches r' c') ≠ some c) →
      lookupA (rs.foldl (fun m req =>
        match headers.find? (fun c' => colMatches req c') with
        | some c' => overwriteA m c' req
        | none => m) m) c = some r := by
  intro rs
  induction rs with
  | nil => intro m hmem; simp at hmem
  | cons r0 rest ih =>
    intro m hmem hno
    simp only [List.foldl_cons]
    by_cases h0 : r0 = r
    · subst h0
      apply buildFold_keeps headers r0 c hfind rest
      · rw [hfind]
        exact lookupA_overwriteA_self m c r0
      · intro r' hr' hner
        exact hno r' (List.mem_cons_of_mem _ hr') hner
    · rcases List.mem_cons.mp hmem with he | ht
      · exact absurd he.symm h0
      · apply ih _ ht
        intro r' hr' hner
        exact hno r' (List.mem_cons_of_mem _ hr') hner

/-- Every binding of `column_mapping` records a genuine flexible match:
the key is the first header that its value matches. -/
theorem buildColMapping_mem (headers : List String) :
    ∀ (rs : List String) (m : List (String × String)),
      (∀ p ∈ m, headers.find? (fun c => colMatches p.2 c) = some p.1) →
      ∀ p ∈ rs.foldl (fun m req =>
        match headers.find? (fun c' => colMatches req c') with
        | some c' => overwriteA m c' req
        | none => m) m,
        headers.find? (fun c => colMatches p.2 c) = some p.1 := by
  intro rs
  induction rs with
  | nil => intro m hm p hp; exact hm p hp
  | cons r0 rest ih =>
    intro m hm p hp
    simp only [List.foldl_cons] at hp
    apply ih _ ?_ p hp
    intro p' hp'
    cases hf : headers.find? (fun c' => colMatches r0 c') with
    | none =>
      rw [hf] at hp'
      exact hm p' hp'
    | some c' =>
      rw [hf] at hp'
      unfold overwriteA at hp'
      rcases List.mem_append.mp hp' with hl | hr
      · exact hm p' (List.mem_filter.mp hl).1
      · have : p' = (c', r0) := List.mem_singleton.mp hr
        rw [this]
        exact hf

/-- C9 counterexample: in the header list
`["Source Table Target Table", "Source Field", "Target Field"]` every one of
the four required columns flexibly matches some header (the first header
contains both normalised table-column names), yet the validation raises the
schema error: `Source Table` and `Target Table` both pick the same first
header, the later one wins the rename, and `Source Table` is reported
missing. -/
theorem claim_C9_counterexample :
    requiredCols.all (fun r =>
      (["Source Table Target Table", "Source Field", "Target Field"] : List String).any
        (fun c => colMatches r c)) = true
    ∧ validateMappingColumns ["Source Table Target Table", "Source Field", "Target Field"]
      = .error "Required columns missing from Excel file: Source Table" :=
  ⟨by decide, by decide⟩

/-- C9 (amended): a required column that flexibly matches **no** header is
always reported missing in the schema error; and when every required column
flexibly matches some header **and** no two required columns share their
first matching header, no schema error is raised.  (When two required
columns' first matching header coincides, the later one wins the rename and
the earlier is reported missing — the counterexample.) -/
theorem claim_C9_amended (headers : List String) :
    (∀ r ∈ requiredCols, (∀ c ∈ headers, colMatches r c = false) →
      validateMappingColumns headers
        = .error ("Required columns missing from Excel file: "
            ++ String.intercalate ", " (missingAfterRename headers))
      ∧ r ∈ missingAfterRename headers)
    ∧ ((∀ r ∈ requiredCols,
          (headers.find? (fun c => colMatches r c)).isSome = true) →
        (∀ r1 ∈ requiredCols, ∀ r2 ∈ requiredCols, r1 ≠ r2 →
          headers.find? (fun c => colMatches r1 c)
            ≠ headers.find? (fun c => colMatches r2 c)) →
        ∃ hs, validateMappingColumns headers = .ok hs) := by
  constructor
  · intro r hr H
    have hnotin : r ∉ headers := by
      intro hmem
      have h1 := H r hmem
      rw [colMatches_self r] at h1
      exact absurd h1 (by decide)
    have hcont : headers.contains r = false := by
      cases h : headers.contains r with
      | false => rfl
      | true => exact absurd ((string_contains_iff headers r).mp h) hnotin
    have hmiss1 : r ∈ requiredCols.filter (fun r => !headers.contains r) :=
      List.mem_filter.mpr ⟨hr, by rw [hcont]; rfl⟩
    have hmiss1ne : (requiredCols.filter (fun r => !headers.contains r)).isEmpty
        = false := by
      cases h : (requiredCols.filter (fun r => !headers.contains r)).isEmpty with
      | false => rfl
      | true =>
        rw [List.isEmpty_iff] at h
        rw [h] at hmiss1
        simp at hmiss1
    have hnotin2 : r ∉ renamedHeaders headers := by
      unfold renamedHeaders
      by_cases hc : (buildColMapping headers).isEmpty = true
      · rw [if_pos hc]
        exact hnotin
      · rw [if_neg hc]
        intro hmem
        obtain ⟨c, hcmem, hceq⟩ := List.mem_map.mp hmem
        cases hl : lookupA (buildColMapping headers) c with
        | none =>
          rw [hl] at hceq
          exact hnotin (hceq ▸ hcmem)
        | some v =>
          rw [hl] at hceq
          have hveq : v = r := hceq
          obtain ⟨p0, hp0, hp0v⟩ := Option.map_eq_some'.mp hl
          have hp0k : p0.1 = c := by
            have := List.find?_some hp0
            simpa using this
          have hpm : (c, v) ∈ buildColMapping headers := by
            have hmem0 := List.mem_of_find?_eq_some hp0
            have : p0 = (c, v) := by
              cases p0 with
              | mk a b =>
                simp only at hp0k hp0v
                rw [hp0k, hp0v]
            rwa [this] at hmem0
          have hfind := buildColMapping_mem headers requiredCols []
            (by intro p hp; simp at hp) (c, v) hpm
          have hcolm : colMatches v c = true := by
            have := List.find?_some hfind
            simpa using this
          have hcin : c ∈ headers := List.mem_of_find?_eq_some hfind
          rw [hveq] at hcolm
          have := H c hcin
          rw [this] at hcolm
          exact absurd hcolm (by decide)
    have hcont2 : (renamedHeaders headers).contains r = false := by
      cases h : (renamedHeaders headers).contains r with
      | false => rfl
      | true => exact absurd ((string_contains_iff _ r).mp h) hnotin2
    have hmiss2 : r ∈ missingAfterRename headers := by
      unfold missingAfterRename
      exact List.mem_filter.mpr ⟨hr, by rw [hcont2]; rfl⟩
    have hmiss2ne : (missingAfterRename headers).isEmpty = false := by
      cases h : (missingAfterRename headers).isEmpty with
      | false => rfl
      | true =>
        rw [List.isEmpty_iff] at h
        rw [h] at hmiss2
        simp at hmiss2
    refine ⟨?_, hmiss2⟩
    unfold validateMappingColumns
    rw [if_neg (by rw [hmiss1ne]; decide), if_neg (by rw [hmiss2ne]; decide)]
  · intro hfound hinj
    by_cases hm : (requiredCols.filter (fun r => !headers.contains r)).isEmpty = true
    · exact ⟨headers, by unfold validateMappingColumns; rw [if_pos hm]⟩
    · have hall : ∀ r ∈ requiredCols, r ∈ renamedHeaders headers := by
        intro r hr
        obtain ⟨c, hc⟩ : ∃ c, headers.find? (fun c => colMatches r c) = some c := by
          have hs := hfound r hr
          cases hf : headers.find? (fun c => colMatches r c) with
          | some c => exact ⟨c, rfl⟩
          | none =>
            rw [hf] at hs
            exact absurd hs (by decide)
        have hlk : lookupA (buildColMapping headers) c = some r := by
          unfold buildColMapping
          exact buildFold_lookup headers r c hc requiredCols [] hr
            (fun r' hr' hne heq => hinj r' hr' r hr hne (by rw [heq, hc]))
        have hcm_ne : (buildColMapping headers).isEmpty = false := by
          cases h : (buildColMapping headers).isEmpty with
          | false => rfl
          | true =>
            rw [List.isEmpty_iff] at h
            rw [h] at hlk
            exact absurd hlk (by rw [lookupA_nil]; simp)
        unfold renamedHeaders
        rw [if_neg (by rw [hcm_ne]; decide)]
        exact List.mem_map.mpr ⟨c, List.mem_of_find?_eq_some hc, by rw [hlk]; rfl⟩
      have hm2 : missingAfterRename headers = [] := by
        unfold missingAfterRename
        rw [List.filter_eq_nil_iff]
        intro r hr
        have hmem := hall r hr
        have : (renamedHeaders headers).contains r = true :=
          (string_contains_iff _ r).mpr hmem
        rw [this]
        decide
      refine ⟨renamedHeaders headers, ?_⟩
      unfold validateMappingColumns
      rw [if_neg hm, if_pos (by rw [hm2]; rfl)]

theorem claim_C9_amended_witness :
    ((∀ r ∈ requiredCols,
        ((["source table", "target  table", "SourceField", "Target Field"] :
          List String).find? (fun c => colMatches r c)).isSome = true)
      ∧ (∀ r1 ∈ requiredCols, ∀ r2 ∈ requiredCols, r1 ≠ r2 →
          (["source table", "target  table", "SourceField", "Target Field"] :
            List String).find? (fun c => colMatches r1 c)
            ≠ (["source table", "target  table", "SourceField", "Target Field"] :
              List String).find? (fun c => colMatches r2 c)))
    ∧ (∃ hs, validateMappingColumns
        ["source table", "target  table", "SourceField", "Target Field"] = .ok hs) :=
  ⟨⟨by decide, by decide⟩,
   (claim_C9_amended
     ["source table", "target  table", "SourceField", "Target Field"]).2
     (by decide) (by decide)⟩
